import Mathlib

/-!
# BGslave: I2C slave driving a 4-digit 7-segment display with 4 debounced switches

Shallow embedding of `src/BGslave.c` (ATmega8L firmware).

* 8-bit registers and variables are natural numbers; the only operations of the
  program that can leave the range `0..255` are the increments `dig++`, `swon++`
  and `swoff++`, which are reduced modulo 256.
* `~x` is evaluated after integer promotion, on the 16-bit two's-complement `int`
  of avr-gcc: its bit pattern is `0xFFFF ^^^ x`.
* The interrupt handler `ISR(TWI_vect)` is a function on the machine state; a bus
  event is the hardware loading `TWDR` and `TWSR` followed by one run of the
  handler.
* One pass through the body of `while(1)` in `main` is `tick`, with the value
  read from `PINC` as its input.
* The handler can also run inside a pass.  Two such interleavings are modelled,
  each with the handler placed between two accesses the source makes one after
  the other: `tickPreemptedAtSelect` (between the read and the write of `PORTB`
  in line 194) and `tickPreemptedAtAssert` (between lines 205 and 206).
-/

namespace BGslave

/-! ## Data model -/

/-- The table `seg[16]` (lines 113-129). -/
def seg : List Nat :=
  [0x81, 0xF3, 0x49, 0x61, 0x33, 0x25, 0x05, 0xF1, 0x01, 0x21, 0x7F, 0xFF, 0xFF, 0xFF, 0xFF, 0xFF]

/-- A `uint8_t x[4]` array. -/
structure Arr4 where
  a0 : Nat
  a1 : Nat
  a2 : Nat
  a3 : Nat
deriving DecidableEq, Repr

/-- Array read `x[i]`.  Indices outside `0..3` do not occur in the program (every
index is masked first); the model reads 0 there. -/
def Arr4.get (a : Arr4) (i : Nat) : Nat :=
  match i with
  | 0 => a.a0
  | 1 => a.a1
  | 2 => a.a2
  | 3 => a.a3
  | _ => 0

/-- Array write `x[i] = v`.  Indices outside `0..3` do not occur in the program;
the model leaves the array alone there. -/
def Arr4.set (a : Arr4) (i : Nat) (v : Nat) : Arr4 :=
  match i with
  | 0 => { a with a0 := v }
  | 1 => { a with a1 := v }
  | 2 => { a with a2 := v }
  | 3 => { a with a3 := v }
  | _ => a

/-- Bit position of the interrupt flag in `TWCR` (`avr/io.h`, ATmega8). -/
def TWINT : Nat := 7

/-- Bitwise complement `~x` on the promoted 16-bit `int`. -/
def cnot (x : Nat) : Nat := 0xFFFF ^^^ x

/-- Machine state: the globals (lines 131-133), the registers the program
touches, and the locals of `main` (lines 169-170). -/
structure State where
  digit : Arr4
  buf : Arr4
  swflag : Nat
  switches : Nat
  TWDR : Nat
  TWSR : Nat
  TWCR : Nat
  PORTB : Nat
  PORTD : Nat
  dig : Nat
  swon : Nat
  swoff : Nat
deriving DecidableEq, Repr

/-! ## The TWI interrupt handler (lines 137-165) -/

/-- Line 140: `if(swflag==1)TWDR=switches;`. -/
def preload (s : State) : State :=
  if s.swflag = 1 then { s with TWDR := s.switches } else s

/-- Line 142: `TWCR = TWCR | (1<<TWINT);`. -/
def clearInt (s : State) : State :=
  { s with TWCR := s.TWCR ||| (1 <<< TWINT) }

/-- Line 151: `for(i=0;i<4;i++) digit[i]=buf[i];`. -/
def copyBuf (digit buf : Arr4) : Arr4 :=
  (List.range 4).foldl (fun dg i => dg.set i (buf.get i)) digit

/-- Lines 147-152: `case 0x80`, with `data` the byte read from `TWDR` on entry. -/
def dataReceived (s : State) (data : Nat) : State :=
  let index := (data &&& 0x30) >>> 4
  let s1 := { s with buf := s.buf.set index (seg.getD (data &&& 0x0F) 0) }
  let s2 := if data &&& 0x40 ≠ 0 then
      { s1 with buf := s1.buf.set index (s1.buf.get index &&& 0xFE) }
    else s1
  if data &&& 0x80 ≠ 0 then { s2 with digit := copyBuf s2.digit s2.buf } else s2

/-- Lines 155-156: `case 0xA8`. -/
def addressRead (s : State) : State :=
  let s1 := { s with swflag := 0 }
  { s1 with PORTB := s1.PORTB &&& 0x7F }

/-- The handler `ISR(TWI_vect)`. -/
def ISR (s : State) : State :=
  let data := s.TWDR
  let s1 := preload s
  let status := s1.TWSR &&& 0xF8
  let s2 := clearInt s1
  if status = 0x60 then s2
  else if status = 0x80 then dataReceived s2 data
  else if status = 0xA8 then addressRead s2
  else s2

/-- A bus event: the TWI hardware has put `data` in `TWDR` and `status` in `TWSR`,
and the handler runs once. -/
def event (s : State) (data status : Nat) : State :=
  ISR { s with TWDR := data, TWSR := status }

/-! ## The main loop (lines 191-220) -/

/-- Lines 194-197: drive the display and advance the digit pointer. -/
def driveDisplay (s : State) : State :=
  let s1 := { s with PORTB := (0x80 &&& s.PORTB) ||| (0x0F &&& cnot (1 <<< s.dig)) }
  let s2 := { s1 with PORTD := s1.digit.get s1.dig }
  let s3 := { s2 with dig := (s2.dig + 1) % 256 }
  { s3 with dig := s3.dig &&& 0x03 }

/-- Line 200: the switch sample `(~PINC) & 0x0F`. -/
def sample (pinc : Nat) : Nat := cnot pinc &&& 0x0F

/-- Lines 200-217: read and debounce the switches; `pinc` is the value of `PINC`. -/
def debounce (s : State) (pinc : Nat) : State :=
  let s1 := { s with switches := sample pinc }
  if s1.switches ≠ 0 then
    let s2 := { s1 with swon := (s1.swon + 1) % 256 }
    let s3 := { s2 with swoff := 0 }
    let s4 := if s3.swon = 4 then { s3 with PORTB := s3.PORTB ||| 0x80, swflag := 1 } else s3
    if s4.swon > 5 then { s4 with swon := 5 } else s4
  else
    let s2 := { s1 with swoff := (s1.swoff + 1) % 256 }
    let s3 := if s2.swon < 4 then { s2 with swon := 0 } else s2
    if s3.swoff > 20 then { s3 with swon := 0, swoff := 20 } else s3

/-- One pass through the body of `while(1)`. -/
def tick (s : State) (pinc : Nat) : State :=
  debounce (driveDisplay s) pinc

/-- Successive passes through the loop body, one per sampled `PINC` value. -/
def ticks (s : State) (pincs : List Nat) : State :=
  pincs.foldl tick s

/-- The state `main` enters the loop with: statics zeroed by the C runtime, the
registers as written in lines 174-185, `dig = 0`, and `swon`, `swoff` holding
whatever their uninitialised storage held. -/
def powerOn (swon0 swoff0 : Nat) : State :=
  { digit := ⟨0, 0, 0, 0⟩, buf := ⟨0, 0, 0, 0⟩, swflag := 0, switches := 0,
    TWDR := 0xFF, TWSR := 0xF8, TWCR := 0xC5, PORTB := 0x0F, PORTD := 0xFF,
    dig := 0, swon := swon0, swoff := swoff0 }

/-! ## The command byte (lines 12-20) -/

/-- The byte `[commit:1][dp:1][pos:2][value:4]`. -/
def cmdByte (commit dp : Bool) (pos value : Nat) : Nat :=
  (if commit then 0x80 else 0) ||| (if dp then 0x40 else 0) ||| (pos <<< 4) ||| value

/-- The switch samples of the list with no run of four consecutive active
samples, `run` being the length of the active run that precedes the list. -/
def noRun4 (run : Nat) : List Nat → Bool
  | [] => true
  | c :: cs => if sample c ≠ 0 then (run + 1 < 4 && noRun4 (run + 1) cs) else noRun4 0 cs

/-- Length of the run of active samples that ends the list, after a run of
`run` active samples before it. -/
def trailingRun (run : Nat) : List Nat → Nat
  | [] => run
  | c :: cs => if sample c ≠ 0 then trailingRun (run + 1) cs else trailingRun 0 cs

/-! ## Interleavings of the handler and the main loop -/

/-- What can happen next: a whole pass of the main loop sampling `pinc` on
`PINC`, or a whole run of the handler for a bus event. -/
inductive Input where
  | pass (pinc : Nat)
  | bus (data status : Nat)
deriving DecidableEq, Repr

/-- One whole step. -/
def step (s : State) : Input → State
  | Input.pass pinc => tick s pinc
  | Input.bus data status => event s data status

/-- A sequence of whole steps. -/
def run (s : State) (inputs : List Input) : State :=
  inputs.foldl step s

/-- The write of line 194, `PORTB=0x80&PORTB | (0x0F&~(1<<dig));`, with `portb`
the value the statement has read from `PORTB`. -/
def selectDigit (s : State) (portb : Nat) : State :=
  { s with PORTB := (0x80 &&& portb) ||| (0x0F &&& cnot (1 <<< s.dig)) }

/-- Lines 195-197: `PORTD=digit[dig]; dig++; dig=dig&0x03;`. -/
def outputDigit (s : State) : State :=
  let s2 := { s with PORTD := s.digit.get s.dig }
  let s3 := { s2 with dig := (s2.dig + 1) % 256 }
  { s3 with dig := s3.dig &&& 0x03 }

/-- A pass of the main loop during which the handler runs once, after line 194
has read `PORTB` and before it writes `PORTB`. -/
def tickPreemptedAtSelect (s : State) (pinc data status : Nat) : State :=
  let portb := s.PORTB
  let s1 := event s data status
  debounce (outputDigit (selectDigit s1 portb)) pinc

/-- A pass of the main loop during which the handler runs once, between
`PORTB=PORTB|0x80;` (line 205) and `swflag=1;` (line 206).  The pass has such a
point only when it takes the branch `swon==4`; otherwise the result is `none`. -/
def tickPreemptedAtAssert (s : State) (pinc data status : Nat) : Option State :=
  let s0 := driveDisplay s
  let s1 := { s0 with switches := sample pinc }
  if s1.switches ≠ 0 then
    let s2 := { s1 with swon := (s1.swon + 1) % 256 }
    let s3 := { s2 with swoff := 0 }
    if s3.swon = 4 then
      let s4 := { s3 with PORTB := s3.PORTB ||| 0x80 }
      let s5 := event s4 data status
      let s6 := { s5 with swflag := 1 }
      some (if s6.swon > 5 then { s6 with swon := 5 } else s6)
    else none
  else none

/-! ## The seven-segment font -/

/-- The standard seven-segment glyph of a decimal digit, as the list of its lit
segments, with a = 0, b = 1, c = 2, d = 3, e = 4, f = 5, g = 6. -/
def glyph : Nat → List Nat
  | 0 => [0, 1, 2, 3, 4, 5]
  | 1 => [1, 2]
  | 2 => [0, 1, 3, 4, 6]
  | 3 => [0, 1, 2, 3, 6]
  | 4 => [1, 2, 5, 6]
  | 5 => [0, 2, 3, 5, 6]
  | 6 => [0, 2, 3, 4, 5, 6]
  | 7 => [0, 1, 2]
  | 8 => [0, 1, 2, 3, 4, 5, 6]
  | 9 => [0, 1, 2, 3, 5, 6]
  | _ => []

/-- The pattern of a glyph under the bit assignment of the comment in lines
105-109: bit 6 is segment a, ..., bit 0 is segment g, a 0 bit lights the
segment, and bit 7 (decimal point) is left at 1. -/
def documentedPattern (v : Nat) : Nat :=
  (glyph v).foldl (fun x k => x &&& (0xFF ^^^ (1 <<< (6 - k)))) 0xFF

/-- A byte with its eight bits in reverse order: bit `i` of the result is bit
`7 - i` of `x`. -/
def mirror8 (x : Nat) : Nat :=
  (List.range 8).foldl (fun y i => if x.testBit (7 - i) then y ||| (1 <<< i) else y) 0

/-! ## Arrays and the command byte -/

theorem Arr4.get_set (a : Arr4) (i j v : Nat) :
    (a.set i v).get j = if i = j ∧ i < 4 then v else a.get j := by
  unfold Arr4.set Arr4.get
  split <;> split <;> simp_all
  omega

theorem Arr4.ext_get (a b : Arr4) (h : ∀ i < 4, a.get i = b.get i) : a = b := by
  have h0 := h 0 (by decide)
  have h1 := h 1 (by decide)
  have h2 := h 2 (by decide)
  have h3 := h 3 (by decide)
  cases a; cases b
  simp_all [Arr4.get]

theorem copyBuf_eq (d b : Arr4) : copyBuf d b = b := by
  cases d; cases b
  simp [copyBuf, List.range, List.range.loop, Arr4.set, Arr4.get]

theorem index_lt (d : Nat) : (d &&& 0x30) >>> 4 < 4 := by
  have h : d &&& 0x30 ≤ 0x30 := Nat.and_le_right
  rw [Nat.shiftRight_eq_div_pow]; omega

theorem value_lt (d : Nat) : d &&& 0x0F < 16 := by
  have h : d &&& 0x0F ≤ 0x0F := Nat.and_le_right
  omega

theorem and_bit_ne_zero (d i : Nat) : d &&& 2 ^ i ≠ 0 ↔ d.testBit i = true := by
  rw [Nat.and_comm, Nat.two_pow_and]
  cases h : d.testBit i <;> simp [h]

/-! ## Effect of the handler, by status -/

theorem event_dataReceived (s : State) (d st : Nat) (hst : st &&& 0xF8 = 0x80) :
    event s d st = dataReceived (clearInt (preload { s with TWDR := d, TWSR := st })) d := by
  have h : (preload { s with TWDR := d, TWSR := st }).TWSR = st := by
    unfold preload; split <;> rfl
  simp [event, ISR, h, hst]

theorem event_addressRead (s : State) (d st : Nat) (hst : st &&& 0xF8 = 0xA8) :
    event s d st = addressRead (clearInt (preload { s with TWDR := d, TWSR := st })) := by
  have h : (preload { s with TWDR := d, TWSR := st }).TWSR = st := by
    unfold preload; split <;> rfl
  simp [event, ISR, h, hst]

theorem event_other (s : State) (d st : Nat) (h80 : st &&& 0xF8 ≠ 0x80)
    (hA8 : st &&& 0xF8 ≠ 0xA8) :
    event s d st = clearInt (preload { s with TWDR := d, TWSR := st }) := by
  have h : (preload { s with TWDR := d, TWSR := st }).TWSR = st := by
    unfold preload; split <;> rfl
  simp [event, ISR, h, h80, hA8]

theorem pre_buf (s : State) : (clearInt (preload s)).buf = s.buf := by
  unfold clearInt preload; split <;> rfl

theorem pre_digit (s : State) : (clearInt (preload s)).digit = s.digit := by
  unfold clearInt preload; split <;> rfl

theorem dataReceived_buf (s : State) (d : Nat) :
    (dataReceived s d).buf =
      s.buf.set ((d &&& 0x30) >>> 4)
        (if d &&& 0x40 ≠ 0 then seg.getD (d &&& 0x0F) 0 &&& 0xFE else seg.getD (d &&& 0x0F) 0) := by
  have hi := index_lt d
  apply Arr4.ext_get
  intro i _
  unfold dataReceived
  by_cases h6 : d &&& 0x40 = 0 <;> by_cases h7 : d &&& 0x80 = 0 <;>
    simp [h6, h7, Arr4.get_set, hi] <;> split <;> simp_all
  
theorem dataReceived_digit (s : State) (d : Nat) :
    (dataReceived s d).digit = if d &&& 0x80 ≠ 0 then (dataReceived s d).buf else s.digit := by
  unfold dataReceived
  by_cases h6 : d &&& 0x40 = 0 <;> by_cases h7 : d &&& 0x80 = 0 <;>
    simp [h6, h7, copyBuf_eq]

theorem and_0x40 (d : Nat) : d &&& 0x40 ≠ 0 ↔ d.testBit 6 = true := and_bit_ne_zero d 6

theorem and_0x80 (d : Nat) : d &&& 0x80 ≠ 0 ↔ d.testBit 7 = true := and_bit_ne_zero d 7

theorem addressRead_pre_digit (s : State) : (addressRead (clearInt (preload s))).digit = s.digit := by
  unfold addressRead clearInt preload; split <;> rfl

theorem addressRead_pre_buf (s : State) : (addressRead (clearInt (preload s))).buf = s.buf := by
  unfold addressRead clearInt preload; split <;> rfl

theorem tick_digit (s : State) (pinc : Nat) : (tick s pinc).digit = s.digit := by
  unfold tick debounce driveDisplay
  simp only
  split_ifs <;> rfl

theorem tick_buf (s : State) (pinc : Nat) : (tick s pinc).buf = s.buf := by
  unfold tick debounce driveDisplay
  simp only
  split_ifs <;> rfl

theorem cmdByte_fields : ∀ c dp : Bool, ∀ p < 4, ∀ v < 16,
    (cmdByte c dp p v &&& 0x30) >>> 4 = p ∧ cmdByte c dp p v &&& 0x0F = v ∧
    (cmdByte c dp p v &&& 0x40 ≠ 0 ↔ dp = true) ∧
    (cmdByte c dp p v &&& 0x80 ≠ 0 ↔ c = true) := by
  decide

theorem event_dataReceived_buf (s : State) (d st : Nat) (hst : st &&& 0xF8 = 0x80) :
    (event s d st).buf =
      s.buf.set ((d &&& 0x30) >>> 4)
        (if d &&& 0x40 ≠ 0 then seg.getD (d &&& 0x0F) 0 &&& 0xFE else seg.getD (d &&& 0x0F) 0) := by
  rw [event_dataReceived s d st hst, dataReceived_buf, pre_buf]

theorem event_dataReceived_digit (s : State) (d st : Nat) (hst : st &&& 0xF8 = 0x80) :
    (event s d st).digit = if d &&& 0x80 ≠ 0 then (event s d st).buf else s.digit := by
  rw [event_dataReceived s d st hst, dataReceived_digit, pre_digit]

theorem event_cmd_buf (s : State) (c dp : Bool) (p v st : Nat) (hp : p < 4) (hv : v < 16)
    (hst : st &&& 0xF8 = 0x80) :
    (event s (cmdByte c dp p v) st).buf =
      s.buf.set p (if dp then seg.getD v 0 &&& 0xFE else seg.getD v 0) := by
  obtain ⟨h1, h2, h3, _⟩ := cmdByte_fields c dp p hp v hv
  rw [event_dataReceived_buf s _ st hst, h1, h2]
  cases dp <;> simp_all

theorem event_cmd_digit (s : State) (c dp : Bool) (p v st : Nat) (hp : p < 4) (hv : v < 16)
    (hst : st &&& 0xF8 = 0x80) :
    (event s (cmdByte c dp p v) st).digit =
      if c then (event s (cmdByte c dp p v) st).buf else s.digit := by
  obtain ⟨_, _, _, h4⟩ := cmdByte_fields c dp p hp v hv
  rw [event_dataReceived_digit s _ st hst]
  cases c <;> simp_all

/-- C1 (staged write then commit).  From any state, four data-received events
(masked status 0x80) address the positions `p0..p3`, a rearrangement of 0..3,
with the values `v p0 .. v p3` in 0..15, decimal-point bit clear and the commit
bit set on the fourth byte only.  After each of the first three events `digit[]`
is what it was at the start; after the fourth, `digit[p] = seg[v p]` for every
position `p`. -/
theorem staged_write_then_commit (s : State) (v : Nat → Nat) (p0 p1 p2 p3 st0 st1 st2 st3 : Nat)
    (hv : ∀ p < 4, v p < 16) (hperm : List.Perm [p0, p1, p2, p3] [0, 1, 2, 3])
    (h0 : st0 &&& 0xF8 = 0x80) (h1 : st1 &&& 0xF8 = 0x80) (h2 : st2 &&& 0xF8 = 0x80)
    (h3 : st3 &&& 0xF8 = 0x80) :
    (event s (cmdByte false false p0 (v p0)) st0).digit = s.digit ∧
    (event (event s (cmdByte false false p0 (v p0)) st0)
      (cmdByte false false p1 (v p1)) st1).digit = s.digit ∧
    (event (event (event s (cmdByte false false p0 (v p0)) st0)
      (cmdByte false false p1 (v p1)) st1)
      (cmdByte false false p2 (v p2)) st2).digit = s.digit ∧
    ∀ p < 4, (event (event (event (event s (cmdByte false false p0 (v p0)) st0)
      (cmdByte false false p1 (v p1)) st1)
      (cmdByte false false p2 (v p2)) st2)
      (cmdByte true false p3 (v p3)) st3).digit.get p = seg.getD (v p) 0 := by
  have hm : ∀ q, q ∈ [p0, p1, p2, p3] ↔ q ∈ [0, 1, 2, 3] := fun q => hperm.mem_iff
  have hnd : [p0, p1, p2, p3].Nodup := hperm.nodup_iff.mpr (by decide)
  have hp0 : p0 < 4 := by have := (hm p0).mp (by simp); simp at this; omega
  have hp1 : p1 < 4 := by have := (hm p1).mp (by simp); simp at this; omega
  have hp2 : p2 < 4 := by have := (hm p2).mp (by simp); simp at this; omega
  have hp3 : p3 < 4 := by have := (hm p3).mp (by simp); simp at this; omega
  simp only [event_cmd_digit _ _ _ _ _ _ hp0 (hv p0 hp0) h0,
    event_cmd_digit _ _ _ _ _ _ hp1 (hv p1 hp1) h1,
    event_cmd_digit _ _ _ _ _ _ hp2 (hv p2 hp2) h2,
    event_cmd_digit _ _ _ _ _ _ hp3 (hv p3 hp3) h3,
    event_cmd_buf _ _ _ _ _ _ hp0 (hv p0 hp0) h0,
    event_cmd_buf _ _ _ _ _ _ hp1 (hv p1 hp1) h1,
    event_cmd_buf _ _ _ _ _ _ hp2 (hv p2 hp2) h2,
    event_cmd_buf _ _ _ _ _ _ hp3 (hv p3 hp3) h3]
  refine ⟨by simp, by simp, by simp, ?_⟩
  intro p hp
  have hmem : p ∈ [p0, p1, p2, p3] := (hm p).mpr (by simp; omega)
  simp only [List.nodup_cons, List.mem_cons, List.mem_singleton, List.not_mem_nil, or_false,
    not_or, List.nodup_nil, not_false_eq_true, and_true] at hnd
  obtain ⟨⟨h01, h02, h03⟩, ⟨h12, h13⟩, h23⟩ := hnd
  simp only [List.mem_cons, List.mem_singleton, List.not_mem_nil, or_false] at hmem
  rcases hmem with rfl | rfl | rfl | rfl <;>
    simp [Arr4.get_set, hp0, hp1, hp2, hp3, h01, h02, h03, h12, h13, h23, Ne.symm h01,
      Ne.symm h02, Ne.symm h03, Ne.symm h12, Ne.symm h13, Ne.symm h23]

/-- C2 (one data byte and the staging buffer).  For a byte `d` handled with masked
status 0x80, `p = (d & 0x30) >> 4` is below 4 and `v = d & 0x0F` is inside the
table; afterwards `buf[p] = seg[v]` when bit 6 of `d` is clear and
`buf[p] = seg[v] & 0xFE` when it is set; every other `buf[q]` is unchanged; and
when bit 7 is clear `digit[]` is unchanged. -/
theorem data_byte_staging (s : State) (d st : Nat) (hst : st &&& 0xF8 = 0x80) :
    (d &&& 0x30) >>> 4 < 4 ∧ d &&& 0x0F < seg.length ∧
    (d.testBit 6 = false →
      (event s d st).buf.get ((d &&& 0x30) >>> 4) = seg.getD (d &&& 0x0F) 0) ∧
    (d.testBit 6 = true →
      (event s d st).buf.get ((d &&& 0x30) >>> 4) = seg.getD (d &&& 0x0F) 0 &&& 0xFE) ∧
    (∀ q, q ≠ (d &&& 0x30) >>> 4 → (event s d st).buf.get q = s.buf.get q) ∧
    (d.testBit 7 = false → (event s d st).digit = s.digit) := by
  have hi := index_lt d
  refine ⟨hi, value_lt d, ?_, ?_, ?_, ?_⟩
  · intro h6
    have h : ¬ (d &&& 0x40 ≠ 0) := by rw [and_0x40]; simp [h6]
    rw [event_dataReceived_buf s d st hst, Arr4.get_set, if_neg h]
    simp [hi]
  · intro h6
    have h : d &&& 0x40 ≠ 0 := (and_0x40 d).mpr h6
    rw [event_dataReceived_buf s d st hst, Arr4.get_set, if_pos h]
    simp [hi]
  · intro q hq
    rw [event_dataReceived_buf s d st hst, Arr4.get_set]
    simp [Ne.symm hq]
  · intro h7
    have h : ¬ (d &&& 0x80 ≠ 0) := by rw [and_0x80]; simp [h7]
    rw [event_dataReceived_digit s d st hst, if_neg h]

/-- C3 (the displayed frame changes only through a commit).  For every state and
event: when the masked status is 0x80 and bit 7 of the byte is set, afterwards
`digit[i] = buf[i]` for all `i` (with `buf` as this byte has just staged it); in
every other case `digit[]` is unchanged; and a pass of the main loop changes
neither `digit[]` nor `buf[]`. -/
theorem digit_changes_only_by_commit (s : State) (d st pinc : Nat) :
    (st &&& 0xF8 = 0x80 ∧ d.testBit 7 = true →
      ∀ i < 4, (event s d st).digit.get i = (event s d st).buf.get i) ∧
    (¬ (st &&& 0xF8 = 0x80 ∧ d.testBit 7 = true) → (event s d st).digit = s.digit) ∧
    (tick s pinc).digit = s.digit ∧ (tick s pinc).buf = s.buf := by
  refine ⟨?_, ?_, tick_digit s pinc, tick_buf s pinc⟩
  · rintro ⟨hst, h7⟩ i _
    rw [event_dataReceived_digit s d st hst, if_pos ((and_0x80 d).mpr h7)]
  · intro h
    by_cases h80 : st &&& 0xF8 = 0x80
    · have h7 : ¬ (d &&& 0x80 ≠ 0) := by
        rw [and_0x80]; exact fun h7 => h ⟨h80, h7⟩
      rw [event_dataReceived_digit s d st h80, if_neg h7]
    · by_cases hA8 : st &&& 0xF8 = 0xA8
      · rw [event_addressRead s d st hA8, addressRead_pre_digit]
      · rw [event_other s d st h80 hA8, pre_digit]

/-! ## Effect of one pass of the main loop -/

theorem driveDisplay_bit7 (s : State) :
    (driveDisplay s).PORTB.testBit 7 = s.PORTB.testBit 7 := by
  have h1 : (0x80 : Nat).testBit 7 = true := by decide
  have h2 : (0x0F : Nat).testBit 7 = false := by decide
  simp [driveDisplay, Nat.testBit_or, Nat.testBit_and, h1, h2]

theorem or_0x80_bit7 (p : Nat) : (p ||| 0x80).testBit 7 = true := by
  have h1 : (0x80 : Nat).testBit 7 = true := by decide
  simp [Nat.testBit_or, h1]

theorem tick_switches (s : State) (c : Nat) : (tick s c).switches = sample c := by
  unfold tick debounce
  simp only
  split_ifs <;> rfl

theorem tick_TWDR (s : State) (c : Nat) : (tick s c).TWDR = s.TWDR := by
  unfold tick debounce driveDisplay
  simp only
  split_ifs <;> rfl

theorem tick_active_swon (s : State) (c : Nat) (h : sample c ≠ 0) :
    (tick s c).swon = if (s.swon + 1) % 256 > 5 then 5 else (s.swon + 1) % 256 := by
  unfold tick debounce driveDisplay
  simp only [h, ne_eq, not_false_eq_true, if_true]
  split_ifs <;> rfl

theorem tick_active_swoff (s : State) (c : Nat) (h : sample c ≠ 0) : (tick s c).swoff = 0 := by
  unfold tick debounce driveDisplay
  simp only [h, ne_eq, not_false_eq_true, if_true]
  split_ifs <;> rfl

theorem tick_active_swflag (s : State) (c : Nat) (h : sample c ≠ 0) :
    (tick s c).swflag = if (s.swon + 1) % 256 = 4 then 1 else s.swflag := by
  unfold tick debounce driveDisplay
  simp only [h, ne_eq, not_false_eq_true, if_true]
  split_ifs <;> rfl

theorem tick_active_bit7 (s : State) (c : Nat) (h : sample c ≠ 0) :
    (tick s c).PORTB.testBit 7 =
      if (s.swon + 1) % 256 = 4 then true else s.PORTB.testBit 7 := by
  have hd := driveDisplay_bit7 s
  unfold tick debounce
  simp only [h, ne_eq, not_false_eq_true, if_true]
  have e : (driveDisplay s).swon = s.swon := rfl
  rw [e]
  by_cases h4 : (s.swon + 1) % 256 = 4
  · simp only [h4, if_true]
    split_ifs <;> exact or_0x80_bit7 _
  · simp only [h4, if_false]
    split_ifs <;> exact hd

theorem tick_idle_swon (s : State) (c : Nat) (h : sample c = 0) :
    (tick s c).swon =
      if (s.swoff + 1) % 256 > 20 then 0 else if s.swon < 4 then 0 else s.swon := by
  unfold tick debounce driveDisplay
  simp only [h, ne_eq, not_true_eq_false, if_false]
  split_ifs <;> rfl

theorem tick_idle_swoff (s : State) (c : Nat) (h : sample c = 0) :
    (tick s c).swoff = if (s.swoff + 1) % 256 > 20 then 20 else (s.swoff + 1) % 256 := by
  unfold tick debounce driveDisplay
  simp only [h, ne_eq, not_true_eq_false, if_false]
  split_ifs <;> rfl

theorem tick_idle_swflag (s : State) (c : Nat) (h : sample c = 0) :
    (tick s c).swflag = s.swflag := by
  unfold tick debounce driveDisplay
  simp only [h, ne_eq, not_true_eq_false, if_false]
  split_ifs <;> rfl

theorem tick_idle_bit7 (s : State) (c : Nat) (h : sample c = 0) :
    (tick s c).PORTB.testBit 7 = s.PORTB.testBit 7 := by
  have hd := driveDisplay_bit7 s
  unfold tick debounce
  simp only [h, ne_eq, not_true_eq_false, if_false]
  split_ifs <;> simp_all

theorem sample_lt (c : Nat) : sample c < 16 := by
  have h : cnot c &&& 0x0F ≤ 0x0F := Nat.and_le_right
  unfold sample; omega

theorem ticks_nil (s : State) : ticks s [] = s := rfl

theorem ticks_cons (s : State) (c : Nat) (cs : List Nat) :
    ticks s (c :: cs) = ticks (tick s c) cs := rfl

theorem ticks_append (s : State) (cs ds : List Nat) :
    ticks s (cs ++ ds) = ticks (ticks s cs) ds := by
  simp [ticks, List.foldl_append]

/-! ## The address+read event -/

theorem event_read_swflag (s : State) (d st : Nat) (hst : st &&& 0xF8 = 0xA8) :
    (event s d st).swflag = 0 := by
  rw [event_addressRead s d st hst]; rfl

theorem event_read_PORTB (s : State) (d st : Nat) (hst : st &&& 0xF8 = 0xA8) :
    (event s d st).PORTB = s.PORTB &&& 0x7F := by
  rw [event_addressRead s d st hst]
  unfold addressRead clearInt preload
  split <;> rfl

theorem event_read_switches (s : State) (d st : Nat) (hst : st &&& 0xF8 = 0xA8) :
    (event s d st).switches = s.switches := by
  rw [event_addressRead s d st hst]
  unfold addressRead clearInt preload
  split <;> rfl

theorem event_read_TWDR (s : State) (d st : Nat) (hst : st &&& 0xF8 = 0xA8) :
    (event s d st).TWDR = if s.swflag = 1 then s.switches else d := by
  rw [event_addressRead s d st hst]
  unfold addressRead clearInt preload
  split <;> simp_all

theorem and_0x7F_low (p i : Nat) (h : i < 7) : (p &&& 0x7F).testBit i = p.testBit i := by
  rw [Nat.testBit_and]
  have : (0x7F : Nat).testBit i = true := by interval_cases i <;> decide
  simp [this]

theorem and_0x7F_bit7 (p : Nat) : (p &&& 0x7F).testBit 7 = false := by
  rw [Nat.testBit_and]
  have : (0x7F : Nat).testBit 7 = false := by decide
  simp [this]

theorem tick_swflag_one (s : State) (c : Nat) (h : s.swflag = 1) : (tick s c).swflag = 1 := by
  by_cases hc : sample c = 0
  · rw [tick_idle_swflag s c hc, h]
  · rw [tick_active_swflag s c hc, h]; simp

theorem ticks_swflag_one (s : State) (cs : List Nat) (h : s.swflag = 1) :
    (ticks s cs).swflag = 1 := by
  induction cs generalizing s with
  | nil => exact h
  | cons c cs ih => exact ih (tick s c) (tick_swflag_one s c h)

theorem ticks_snoc (s : State) (cs : List Nat) (c : Nat) :
    ticks s (cs ++ [c]) = tick (ticks s cs) c := by
  rw [ticks_append]; rfl

/-- C4 (debounce confirmation and read-back).  From a state with `swon = 0`,
`swflag = 0` and the notification line (bit 7 of `PORTB`) low, after each of the
first three passes with an active sample the flag is still 0 and the line still
low; after the fourth the flag is 1, the line is high and `switches` is the
fourth sample.  An address+read event (masked status 0xA8) handled next leaves
`TWDR` equal to that sample (high four bits 0), the flag 0 and the line low. -/
theorem debounce_confirm_then_read (s : State) (c1 c2 c3 c4 d st : Nat)
    (hon : s.swon = 0) (hflag : s.swflag = 0) (hB : s.PORTB.testBit 7 = false)
    (h1 : sample c1 ≠ 0) (h2 : sample c2 ≠ 0) (h3 : sample c3 ≠ 0) (h4 : sample c4 ≠ 0)
    (hst : st &&& 0xF8 = 0xA8) :
    ((ticks s [c1]).swflag = 0 ∧ (ticks s [c1]).PORTB.testBit 7 = false) ∧
    ((ticks s [c1, c2]).swflag = 0 ∧ (ticks s [c1, c2]).PORTB.testBit 7 = false) ∧
    ((ticks s [c1, c2, c3]).swflag = 0 ∧ (ticks s [c1, c2, c3]).PORTB.testBit 7 = false) ∧
    ((ticks s [c1, c2, c3, c4]).swflag = 1 ∧ (ticks s [c1, c2, c3, c4]).PORTB.testBit 7 = true ∧
      (ticks s [c1, c2, c3, c4]).switches = sample c4) ∧
    ((event (ticks s [c1, c2, c3, c4]) d st).TWDR = sample c4 ∧
      (event (ticks s [c1, c2, c3, c4]) d st).TWDR &&& 0x0F = sample c4 ∧
      (event (ticks s [c1, c2, c3, c4]) d st).TWDR >>> 4 = 0 ∧
      (event (ticks s [c1, c2, c3, c4]) d st).swflag = 0 ∧
      (event (ticks s [c1, c2, c3, c4]) d st).PORTB.testBit 7 = false) := by
  have e1 : ticks s [c1] = tick s c1 := rfl
  have e2 : ticks s [c1, c2] = tick (tick s c1) c2 := rfl
  have e3 : ticks s [c1, c2, c3] = tick (tick (tick s c1) c2) c3 := rfl
  have e4 : ticks s [c1, c2, c3, c4] = tick (tick (tick (tick s c1) c2) c3) c4 := rfl
  have n1 : (tick s c1).swon = 1 := by rw [tick_active_swon s c1 h1, hon]; rfl
  have n2 : (tick (tick s c1) c2).swon = 2 := by rw [tick_active_swon _ c2 h2, n1]; rfl
  have n3 : (tick (tick (tick s c1) c2) c3).swon = 3 := by rw [tick_active_swon _ c3 h3, n2]; rfl
  have f1 : (tick s c1).swflag = 0 := by rw [tick_active_swflag s c1 h1, hon, hflag]; rfl
  have f2 : (tick (tick s c1) c2).swflag = 0 := by rw [tick_active_swflag _ c2 h2, n1, f1]; rfl
  have f3 : (tick (tick (tick s c1) c2) c3).swflag = 0 := by
    rw [tick_active_swflag _ c3 h3, n2, f2]; rfl
  have f4 : (tick (tick (tick (tick s c1) c2) c3) c4).swflag = 1 := by
    rw [tick_active_swflag _ c4 h4, n3]; rfl
  have b1 : (tick s c1).PORTB.testBit 7 = false := by
    rw [tick_active_bit7 s c1 h1, hon, hB]; rfl
  have b2 : (tick (tick s c1) c2).PORTB.testBit 7 = false := by
    rw [tick_active_bit7 _ c2 h2, n1, b1]; rfl
  have b3 : (tick (tick (tick s c1) c2) c3).PORTB.testBit 7 = false := by
    rw [tick_active_bit7 _ c3 h3, n2, b2]; rfl
  have b4 : (tick (tick (tick (tick s c1) c2) c3) c4).PORTB.testBit 7 = true := by
    rw [tick_active_bit7 _ c4 h4, n3]; rfl
  have w4 : (tick (tick (tick (tick s c1) c2) c3) c4).switches = sample c4 := tick_switches _ c4
  have hT : (event (tick (tick (tick (tick s c1) c2) c3) c4) d st).TWDR = sample c4 := by
    rw [event_read_TWDR _ d st hst, if_pos f4, w4]
  have hlt := sample_lt c4
  rw [e1, e2, e3, e4]
  refine ⟨⟨f1, b1⟩, ⟨f2, b2⟩, ⟨f3, b3⟩, ⟨f4, b4, w4⟩, hT, ?_, ?_, event_read_swflag _ d st hst, ?_⟩
  · rw [hT]
    have h16 : sample c4 < 2 ^ 4 := hlt
    exact Nat.and_pow_two_sub_one_of_lt_two_pow h16
  · rw [hT, Nat.shiftRight_eq_div_pow]
    exact Nat.div_eq_of_lt hlt
  · rw [event_read_PORTB _ d st hst]; exact and_0x7F_bit7 _

/-- C5, counterexample.  At power-on (ready flag clear) an address+read event that
arrives with 0x67 in `TWDR` leaves the low four bits of `TWDR` at 7, while
`switches` is 0. -/
theorem read_without_ready_flag_keeps_TWDR :
    0xA8 &&& 0xF8 = 0xA8 ∧
    (event (powerOn 0 0) 0x67 0xA8).TWDR &&& 0x0F ≠ (event (powerOn 0 0) 0x67 0xA8).switches := by
  decide

/-- C5, amended.  After an address+read event (masked status 0xA8): when the ready
flag was set on entry, `TWDR` equals `switches`, so its low four bits are the
switch mask; when it was not, `TWDR` still holds the byte it held on entry. -/
theorem read_returns_switches_when_ready (s : State) (d st : Nat) (hst : st &&& 0xF8 = 0xA8) :
    (s.swflag = 1 → (event s d st).TWDR = (event s d st).switches ∧
      (event s d st).TWDR &&& 0x0F = (event s d st).switches &&& 0x0F) ∧
    (s.swflag ≠ 1 → (event s d st).TWDR = d) := by
  rw [event_read_TWDR s d st hst, event_read_switches s d st hst]
  constructor
  · intro h; simp [h]
  · intro h; simp [h]

/-- C6, counterexample.  Four passes sampling mask 1 set the ready flag on the
fourth; one more pass sampling mask 2, with no read in between, leaves
`switches` different from 1, and the address+read event that follows loads
`TWDR` with low four bits different from 1. -/
theorem switches_overwritten_after_confirmation :
    (ticks (powerOn 0 0) [0xFE, 0xFE, 0xFE]).swflag = 0 ∧
    (ticks (powerOn 0 0) [0xFE, 0xFE, 0xFE, 0xFE]).swflag = 1 ∧ sample 0xFE = 1 ∧
    (ticks (powerOn 0 0) [0xFE, 0xFE, 0xFE, 0xFE, 0xFD]).switches ≠ 1 ∧
    (event (ticks (powerOn 0 0) [0xFE, 0xFE, 0xFE, 0xFE, 0xFD]) 0x67 0xA8).TWDR &&& 0x0F ≠ 1 := by
  decide

/-- C6, amended.  When a pass sampling `c` leaves the ready flag set, `switches` is
that sample and a read handled at once loads `TWDR` with it; after any further
passes with no read in between, the flag is still set, `switches` is the sample
of the most recent pass, and an address+read event loads `TWDR` with that most
recent sample. -/
theorem switches_follow_latest_sample (s : State) (c : Nat) (cs : List Nat) (c' d st : Nat)
    (hset : (tick s c).swflag = 1) (hst : st &&& 0xF8 = 0xA8) :
    ((tick s c).switches = sample c ∧ (event (tick s c) d st).TWDR = sample c) ∧
    (ticks (tick s c) (cs ++ [c'])).swflag = 1 ∧
    (ticks (tick s c) (cs ++ [c'])).switches = sample c' ∧
    (event (ticks (tick s c) (cs ++ [c'])) d st).TWDR = sample c' := by
  have hf := ticks_swflag_one (tick s c) (cs ++ [c']) hset
  have hw : (ticks (tick s c) (cs ++ [c'])).switches = sample c' := by
    rw [ticks_snoc, tick_switches]
  refine ⟨⟨tick_switches s c, ?_⟩, hf, hw, ?_⟩
  · rw [event_read_TWDR _ d st hst, if_pos hset, tick_switches]
  · rw [event_read_TWDR _ d st hst, if_pos hf, hw]

/-- C7 (effect of an address+read event).  Handling an event with masked status
0xA8 sets `swflag` to 0, clears bit 7 of `PORTB`, leaves bits 0..6 of `PORTB` as
they were, and leaves `buf[]`, `digit[]` and `switches` unchanged. -/
theorem address_read_effect (s : State) (d st : Nat) (hst : st &&& 0xF8 = 0xA8) :
    (event s d st).swflag = 0 ∧ (event s d st).PORTB.testBit 7 = false ∧
    (∀ i < 7, (event s d st).PORTB.testBit i = s.PORTB.testBit i) ∧
    (event s d st).buf = s.buf ∧ (event s d st).digit = s.digit ∧
    (event s d st).switches = s.switches := by
  refine ⟨event_read_swflag s d st hst, ?_, ?_, ?_, ?_, event_read_switches s d st hst⟩
  · rw [event_read_PORTB s d st hst]; exact and_0x7F_bit7 _
  · intro i hi
    rw [event_read_PORTB s d st hst]; exact and_0x7F_low _ i hi
  · rw [event_addressRead s d st hst, addressRead_pre_buf]
  · rw [event_addressRead s d st hst, addressRead_pre_digit]

/-! ## Runs of ticks -/

theorem noRun4_take (run : Nat) (cs : List Nat) (k : Nat) (h : noRun4 run cs = true) :
    noRun4 run (cs.take k) = true := by
  induction cs generalizing run k with
  | nil => simp [noRun4]
  | cons c cs ih =>
    cases k with
    | zero => simp [noRun4]
    | succ k =>
      rw [List.take_succ_cons]
      unfold noRun4 at h ⊢
      by_cases hc : sample c = 0
      · simp only [hc, ne_eq, not_true_eq_false, if_false] at h ⊢
        exact ih 0 k h
      · simp only [hc, ne_eq, not_false_eq_true, if_true, Bool.and_eq_true] at h ⊢
        exact ⟨h.1, ih (run + 1) k h.2⟩

theorem trailingRun_snoc_idle (run : Nat) (cs : List Nat) (c : Nat) (h : sample c = 0) :
    trailingRun run (cs ++ [c]) = 0 := by
  induction cs generalizing run with
  | nil => simp [trailingRun, h]
  | cons a cs ih =>
    rw [List.cons_append]
    unfold trailingRun
    split_ifs
    · exact ih (run + 1)
    · exact ih 0

theorem trailingRun_lt (run : Nat) (cs : List Nat) (hrun : run < 4)
    (h : noRun4 run cs = true) : trailingRun run cs < 4 := by
  induction cs generalizing run with
  | nil => exact hrun
  | cons c cs ih =>
    unfold noRun4 at h
    unfold trailingRun
    by_cases hc : sample c = 0
    · simp only [hc, ne_eq, not_true_eq_false, if_false] at h ⊢
      exact ih 0 (by decide) h
    · simp only [hc, ne_eq, not_false_eq_true, if_true, Bool.and_eq_true,
        decide_eq_true_eq] at h ⊢
      exact ih (run + 1) h.1 h.2

theorem short_runs_invariant (s : State) (run : Nat) (cs : List Nat) (hon : s.swon = run)
    (hrun : run < 4) (hflag : s.swflag = 0) (h : noRun4 run cs = true) :
    (ticks s cs).swflag = 0 ∧ (ticks s cs).PORTB.testBit 7 = s.PORTB.testBit 7 ∧
    (ticks s cs).swon = trailingRun run cs := by
  induction cs generalizing s run with
  | nil => exact ⟨hflag, rfl, hon⟩
  | cons c cs ih =>
    rw [ticks_cons]
    unfold noRun4 at h
    unfold trailingRun
    by_cases hc : sample c = 0
    · simp only [hc, ne_eq, not_true_eq_false, if_false] at h ⊢
      have hon' : (tick s c).swon = 0 := by
        rw [tick_idle_swon s c hc]; split_ifs <;> first | rfl | omega
      have hf' : (tick s c).swflag = 0 := by rw [tick_idle_swflag s c hc, hflag]
      obtain ⟨a, b, e⟩ := ih (tick s c) 0 hon' (by decide) hf' h
      exact ⟨a, by rw [b, tick_idle_bit7 s c hc], e⟩
    · simp only [hc, ne_eq, not_false_eq_true, if_true, Bool.and_eq_true,
        decide_eq_true_eq] at h ⊢
      have hon' : (tick s c).swon = run + 1 := by
        rw [tick_active_swon s c hc, hon]; split_ifs <;> omega
      have hf' : (tick s c).swflag = 0 := by
        rw [tick_active_swflag s c hc, hon, hflag]; split_ifs <;> first | rfl | omega
      have hb' : (tick s c).PORTB.testBit 7 = s.PORTB.testBit 7 := by
        rw [tick_active_bit7 s c hc, hon]; split_ifs <;> first | rfl | omega
      obtain ⟨a, b, e⟩ := ih (tick s c) (run + 1) hon' h.1 hf' h.2
      exact ⟨a, by rw [b, hb'], e⟩

/-- C8 (a press shorter than four passes never latches).  From `swon = 0` and
`swflag = 0`, along any sequence of samples with no four consecutive active
ones: after every pass `swflag` is 0, bit 7 of `PORTB` is what it was at the
start, and `swon` is the length of the active run in progress (below 4); in
particular every idle pass leaves `swon = 0`. -/
theorem short_press_never_latches (s : State) (cs : List Nat) (hon : s.swon = 0)
    (hflag : s.swflag = 0) (hrun : noRun4 0 cs = true) :
    (∀ k ≤ cs.length, (ticks s (cs.take k)).swflag = 0 ∧
      (ticks s (cs.take k)).PORTB.testBit 7 = s.PORTB.testBit 7 ∧
      (ticks s (cs.take k)).swon = trailingRun 0 (cs.take k) ∧
      (ticks s (cs.take k)).swon < 4) ∧
    (∀ k, ∀ h : k < cs.length, sample (cs.get ⟨k, h⟩) = 0 →
      (ticks s (cs.take (k + 1))).swon = 0) := by
  have key : ∀ k, (ticks s (cs.take k)).swflag = 0 ∧
      (ticks s (cs.take k)).PORTB.testBit 7 = s.PORTB.testBit 7 ∧
      (ticks s (cs.take k)).swon = trailingRun 0 (cs.take k) := fun k =>
    short_runs_invariant s 0 (cs.take k) hon (by decide) hflag (noRun4_take 0 cs k hrun)
  constructor
  · intro k _
    obtain ⟨a, b, e⟩ := key k
    have hlt := trailingRun_lt 0 (cs.take k) (by decide) (noRun4_take 0 cs k hrun)
    exact ⟨a, b, e, by rw [e]; exact hlt⟩
  · intro k h hc
    rw [(key (k + 1)).2.2, List.take_succ, List.getElem?_eq_getElem h]
    exact trailingRun_snoc_idle 0 (cs.take k) _ hc

theorem idle_ticks_latched (s : State) (cs : List Nat) (hidle : ∀ c ∈ cs, sample c = 0)
    (hon : 4 ≤ s.swon) (hoff : s.swoff + cs.length ≤ 20) :
    (ticks s cs).swon = s.swon ∧ (ticks s cs).swoff = s.swoff + cs.length ∧
    (ticks s cs).swflag = s.swflag ∧ (ticks s cs).PORTB.testBit 7 = s.PORTB.testBit 7 := by
  induction cs generalizing s with
  | nil => exact ⟨rfl, rfl, rfl, rfl⟩
  | cons c cs ih =>
    have hc : sample c = 0 := hidle c (List.mem_cons_self c cs)
    rw [List.length_cons] at hoff
    have h1 : (tick s c).swon = s.swon := by
      rw [tick_idle_swon s c hc]; split_ifs <;> first | rfl | omega
    have h2 : (tick s c).swoff = s.swoff + 1 := by
      rw [tick_idle_swoff s c hc]; split_ifs <;> omega
    obtain ⟨a, b, f, p⟩ := ih (tick s c) (fun x hx => hidle x (List.mem_cons_of_mem c hx))
      (by omega) (by omega)
    rw [ticks_cons, List.length_cons]
    exact ⟨by rw [a, h1], by rw [b, h2]; omega, by rw [f, tick_idle_swflag s c hc],
      by rw [p, tick_idle_bit7 s c hc]⟩

theorem active_ticks_latched (s : State) (cs : List Nat) (hact : ∀ c ∈ cs, sample c ≠ 0)
    (hon : s.swon = 4 ∨ s.swon = 5) :
    ((ticks s cs).swon = 4 ∨ (ticks s cs).swon = 5) ∧
    (ticks s cs).swflag = s.swflag ∧ (ticks s cs).PORTB.testBit 7 = s.PORTB.testBit 7 := by
  induction cs generalizing s with
  | nil => exact ⟨hon, rfl, rfl⟩
  | cons c cs ih =>
    have hc : sample c ≠ 0 := hact c (List.mem_cons_self c cs)
    have h1 : (tick s c).swon = 5 := by
      rw [tick_active_swon s c hc]; split_ifs <;> omega
    have h2 : (tick s c).swflag = s.swflag := by
      rw [tick_active_swflag s c hc]; split_ifs <;> first | rfl | omega
    have h3 : (tick s c).PORTB.testBit 7 = s.PORTB.testBit 7 := by
      rw [tick_active_bit7 s c hc]; split_ifs <;> first | rfl | omega
    obtain ⟨a, f, p⟩ := ih (tick s c) (fun x hx => hact x (List.mem_cons_of_mem c hx))
      (Or.inr h1)
    rw [ticks_cons]
    exact ⟨a, by rw [f, h2], by rw [p, h3]⟩

theorem four_active_ticks (s : State) (c1 c2 c3 c4 : Nat) (hon : s.swon = 0)
    (h1 : sample c1 ≠ 0) (h2 : sample c2 ≠ 0) (h3 : sample c3 ≠ 0) (h4 : sample c4 ≠ 0) :
    (ticks s [c1, c2, c3]).swflag = s.swflag ∧
    (ticks s [c1, c2, c3]).PORTB.testBit 7 = s.PORTB.testBit 7 ∧
    (ticks s [c1, c2, c3, c4]).swflag = 1 ∧
    (ticks s [c1, c2, c3, c4]).PORTB.testBit 7 = true := by
  have e3 : ticks s [c1, c2, c3] = tick (tick (tick s c1) c2) c3 := rfl
  have e4 : ticks s [c1, c2, c3, c4] = tick (tick (tick (tick s c1) c2) c3) c4 := rfl
  have n1 : (tick s c1).swon = 1 := by rw [tick_active_swon s c1 h1, hon]; rfl
  have n2 : (tick (tick s c1) c2).swon = 2 := by rw [tick_active_swon _ c2 h2, n1]; rfl
  have n3 : (tick (tick (tick s c1) c2) c3).swon = 3 := by rw [tick_active_swon _ c3 h3, n2]; rfl
  rw [e3, e4]
  refine ⟨?_, ?_, ?_, ?_⟩
  · rw [tick_active_swflag _ c3 h3, n2, tick_active_swflag _ c2 h2, n1,
      tick_active_swflag _ c1 h1, hon]; rfl
  · rw [tick_active_bit7 _ c3 h3, n2, tick_active_bit7 _ c2 h2, n1,
      tick_active_bit7 _ c1 h1, hon]; rfl
  · rw [tick_active_swflag _ c4 h4, n3]; rfl
  · rw [tick_active_bit7 _ c4 h4, n3]; rfl

/-- C9 (hysteresis after a confirmed press).  From a state with `swon` 4 or 5 and
`swoff = 0`: (a) after at most 20 consecutive idle passes `swon` is unchanged,
and through any active passes that follow `swflag` and bit 7 of `PORTB` stay as
they were at the start; (b) after 21 consecutive idle passes `swon = 0` and
`swoff = 20`, and of four active passes that follow the first three leave the
flag and the line as they were and the fourth sets both. -/
theorem hysteresis_after_confirmed_press (s : State) (idle : List Nat)
    (hon : s.swon = 4 ∨ s.swon = 5) (hoff : s.swoff = 0) (hidle : ∀ c ∈ idle, sample c = 0) :
    (idle.length ≤ 20 →
      (ticks s idle).swon = s.swon ∧
      ∀ act : List Nat, (∀ c ∈ act, sample c ≠ 0) → ∀ j,
        (ticks s (idle ++ act.take j)).swflag = s.swflag ∧
        (ticks s (idle ++ act.take j)).PORTB.testBit 7 = s.PORTB.testBit 7) ∧
    (idle.length = 21 →
      (ticks s idle).swon = 0 ∧ (ticks s idle).swoff = 20 ∧
      ∀ c1 c2 c3 c4, sample c1 ≠ 0 → sample c2 ≠ 0 → sample c3 ≠ 0 → sample c4 ≠ 0 →
        (ticks s (idle ++ [c1, c2, c3])).swflag = s.swflag ∧
        (ticks s (idle ++ [c1, c2, c3])).PORTB.testBit 7 = s.PORTB.testBit 7 ∧
        (ticks s (idle ++ [c1, c2, c3, c4])).swflag = 1 ∧
        (ticks s (idle ++ [c1, c2, c3, c4])).PORTB.testBit 7 = true) := by
  have hon4 : 4 ≤ s.swon := by omega
  constructor
  · intro hlen
    obtain ⟨a, _, f, p⟩ := idle_ticks_latched s idle hidle hon4 (by omega)
    refine ⟨a, ?_⟩
    intro act hact j
    have hact' : ∀ c ∈ act.take j, sample c ≠ 0 := fun c hc => hact c (List.mem_of_mem_take hc)
    obtain ⟨_, f', p'⟩ := active_ticks_latched (ticks s idle) (act.take j) hact' (by rw [a]; exact hon)
    rw [ticks_append]
    exact ⟨by rw [f', f], by rw [p', p]⟩
  · intro hlen
    have hsplit : idle = idle.take 20 ++ idle.drop 20 := (List.take_append_drop 20 idle).symm
    have hd : (idle.drop 20).length = 1 := by rw [List.length_drop, hlen]
    obtain ⟨c, hc⟩ := List.length_eq_one.mp hd
    have hcidle : sample c = 0 := hidle c (by rw [hsplit, hc]; simp)
    have ht : (idle.take 20).length = 20 := by rw [List.length_take, hlen]; rfl
    obtain ⟨a, b, f, p⟩ := idle_ticks_latched s (idle.take 20)
      (fun x hx => hidle x (List.mem_of_mem_take hx)) hon4 (by omega)
    have e : ticks s idle = tick (ticks s (idle.take 20)) c := by
      rw [hsplit, hc, ticks_snoc, ← hc, ← hsplit]
    have hoff20 : (ticks s (idle.take 20)).swoff = 20 := by rw [b, ht, hoff]
    have hon0 : (ticks s idle).swon = 0 := by
      rw [e, tick_idle_swon _ c hcidle, hoff20]; rfl
    have hoff' : (ticks s idle).swoff = 20 := by
      rw [e, tick_idle_swoff _ c hcidle, hoff20]; rfl
    have hf : (ticks s idle).swflag = s.swflag := by
      rw [e, tick_idle_swflag _ c hcidle, f]
    have hp : (ticks s idle).PORTB.testBit 7 = s.PORTB.testBit 7 := by
      rw [e, tick_idle_bit7 _ c hcidle, p]
    refine ⟨hon0, hoff', ?_⟩
    intro c1 c2 c3 c4 h1 h2 h3 h4
    obtain ⟨q1, q2, q3, q4⟩ := four_active_ticks (ticks s idle) c1 c2 c3 c4 hon0 h1 h2 h3 h4
    rw [ticks_append, ticks_append]
    exact ⟨by rw [q1, hf], by rw [q2, hp], q3, q4⟩

/-! ## Display multiplexing -/

theorem tick_dig (s : State) (c : Nat) : (tick s c).dig = (s.dig + 1) % 256 &&& 0x03 := by
  unfold tick debounce driveDisplay
  simp only
  split_ifs <;> rfl

theorem tick_dig_lt (s : State) (c : Nat) (h : s.dig < 4) : (tick s c).dig = (s.dig + 1) % 4 := by
  rw [tick_dig]
  interval_cases hd : s.dig <;> rfl

theorem ticks_dig (s : State) (cs : List Nat) (h : s.dig < 4) :
    (ticks s cs).dig = (s.dig + cs.length) % 4 := by
  induction cs generalizing s with
  | nil => simp [ticks_nil, Nat.mod_eq_of_lt h]
  | cons c cs ih =>
    have h1 := tick_dig_lt s c h
    rw [ticks_cons, ih (tick s c) (by rw [h1]; exact Nat.mod_lt _ (by decide)), h1,
      List.length_cons]
    omega

theorem ticks_digit (s : State) (cs : List Nat) : (ticks s cs).digit = s.digit := by
  induction cs generalizing s with
  | nil => rfl
  | cons c cs ih => rw [ticks_cons, ih, tick_digit]

theorem and_0x80_cases (p : Nat) : 0x80 &&& p = 0 ∨ 0x80 &&& p = 0x80 := by
  have h : 2 ^ 7 &&& p = 2 ^ 7 * (p.testBit 7).toNat := Nat.two_pow_and p 7
  cases hb : p.testBit 7 <;> rw [hb] at h
  · exact Or.inl h
  · exact Or.inr h

theorem driveDisplay_PORTD (s : State) : (driveDisplay s).PORTD = s.digit.get s.dig := rfl

theorem driveDisplay_PORTB (s : State) :
    (driveDisplay s).PORTB = (0x80 &&& s.PORTB) ||| (0x0F &&& cnot (1 <<< s.dig)) := rfl

theorem tick_PORTD (s : State) (c : Nat) : (tick s c).PORTD = s.digit.get s.dig := by
  unfold tick debounce driveDisplay
  simp only
  split_ifs <;> rfl

theorem tick_PORTB (s : State) (c : Nat) :
    (tick s c).PORTB = (driveDisplay s).PORTB ∨
    (tick s c).PORTB = (driveDisplay s).PORTB ||| 0x80 := by
  unfold tick debounce
  simp only
  split_ifs <;> simp

theorem select_nibble (p d : Nat) (hd : d < 4) (x : Nat)
    (hx : x = (0x80 &&& p) ||| (0x0F &&& cnot (1 <<< d)) ∨
      x = (0x80 &&& p) ||| (0x0F &&& cnot (1 <<< d)) ||| 0x80) :
    x &&& 0x0F = 0x0F &&& cnot (1 <<< d) ∧ ∀ i < 4, (x.testBit i = false ↔ i = d) := by
  rcases and_0x80_cases p with h | h <;> rw [h] at hx <;> rcases hx with rfl | rfl <;>
    interval_cases d <;> decide

/-- C10 (display multiplexing).  Starting from `dig = 0`, in pass `n + 1` (after
the `n` passes `cs`) the digit-select write gives `PORTB` the low nibble
`0x0F & ~(1 << (n mod 4))`, whose only zero bit among bits 0..3 is bit `n mod 4`,
keeps bit 7 of `PORTB`, and `PORTD` receives `digit[n mod 4]`; the same holds for
`PORTB` and `PORTD` at the end of the pass; and afterwards `dig = (n + 1) mod 4`,
which is below 4. -/
theorem display_multiplexing (s : State) (cs : List Nat) (c : Nat) (hdig : s.dig = 0) :
    ((driveDisplay (ticks s cs)).PORTB &&& 0x0F = 0x0F &&& cnot (1 <<< (cs.length % 4)) ∧
      (∀ i < 4, ((driveDisplay (ticks s cs)).PORTB.testBit i = false ↔ i = cs.length % 4)) ∧
      (driveDisplay (ticks s cs)).PORTD = (ticks s cs).digit.get (cs.length % 4) ∧
      (driveDisplay (ticks s cs)).PORTB.testBit 7 = (ticks s cs).PORTB.testBit 7) ∧
    ((ticks s (cs ++ [c])).PORTB &&& 0x0F = 0x0F &&& cnot (1 <<< (cs.length % 4)) ∧
      (∀ i < 4, ((ticks s (cs ++ [c])).PORTB.testBit i = false ↔ i = cs.length % 4)) ∧
      (ticks s (cs ++ [c])).PORTD = (ticks s cs).digit.get (cs.length % 4)) ∧
    (ticks s (cs ++ [c])).dig = (cs.length + 1) % 4 ∧ (ticks s (cs ++ [c])).dig < 4 := by
  have hd : (ticks s cs).dig = cs.length % 4 := by
    rw [ticks_dig s cs (by omega), hdig, Nat.zero_add]
  have hlt : cs.length % 4 < 4 := Nat.mod_lt _ (by decide)
  have hd' : (ticks s (cs ++ [c])).dig = (cs.length + 1) % 4 := by
    rw [ticks_dig s _ (by omega), hdig, Nat.zero_add, List.length_append]; rfl
  have hB := driveDisplay_PORTB (ticks s cs)
  rw [hd] at hB
  obtain ⟨n1, n2⟩ := select_nibble (ticks s cs).PORTB (cs.length % 4) hlt _ (Or.inl hB)
  have hT : (ticks s (cs ++ [c])).PORTB = (0x80 &&& (ticks s cs).PORTB) |||
        (0x0F &&& cnot (1 <<< (cs.length % 4))) ∨
      (ticks s (cs ++ [c])).PORTB = (0x80 &&& (ticks s cs).PORTB) |||
        (0x0F &&& cnot (1 <<< (cs.length % 4))) ||| 0x80 := by
    rw [ticks_snoc, ← hB]; exact tick_PORTB _ c
  obtain ⟨m1, m2⟩ := select_nibble (ticks s cs).PORTB (cs.length % 4) hlt _ hT
  refine ⟨⟨n1, n2, ?_, driveDisplay_bit7 _⟩, ⟨m1, m2, ?_⟩, hd', ?_⟩
  · rw [driveDisplay_PORTD, hd]
  · rw [ticks_snoc, tick_PORTD, hd]
  · rw [hd']; exact Nat.mod_lt _ (by decide)

/-! ## The decode table -/

/-- C11 (the table is the standard font under the wiring of the overlay).  With
bit 0 the decimal point and bits 1..7 the segments a..g (a 0 bit lights): for
every `v` in 0..9 segment `k` is lit in `seg[v]` exactly when it belongs to the
standard glyph of `v`; `seg[10] = 0x7F` lights segment g only; `seg[v] = 0xFF`
for `v` in 11..15; bit 0 is set in all 16 entries; and `& 0xFE` clears bit 0 and
keeps bits 1..7 of every entry. -/
theorem seg_standard_font_dp_bit0 :
    seg.length = 16 ∧
    (∀ v < 10, ∀ k < 7, ((seg.getD v 0).testBit (k + 1) = false ↔ k ∈ glyph v)) ∧
    (seg.getD 10 0 = 0x7F ∧ ∀ k < 7, ((seg.getD 10 0).testBit (k + 1) = false ↔ k = 6)) ∧
    (∀ v < 16, 11 ≤ v → seg.getD v 0 = 0xFF) ∧
    (∀ v < 16, (seg.getD v 0).testBit 0 = true) ∧
    (∀ v < 16, (seg.getD v 0 &&& 0xFE).testBit 0 = false ∧
      ∀ i < 8, i ≠ 0 → (seg.getD v 0 &&& 0xFE).testBit i = (seg.getD v 0).testBit i) := by
  refine ⟨rfl, by decide, by decide, by decide, by decide, by decide⟩

/-- C12, counterexample.  Under the documented assignment segment b is bit 5 and
the decimal point is bit 7; segment b belongs to the glyph of 1 but bit 5 of
`seg[1]` is 1 (segment dark), and bit 7 of `seg[2]` is 0. -/
theorem seg_not_documented_assignment :
    1 ∈ glyph 1 ∧ (seg.getD 1 0).testBit (6 - 1) = true ∧ (seg.getD 2 0).testBit 7 = false := by
  decide

/-- C12, amended.  The table is the documented assignment mirrored end to end
(bit `i` of the documented pattern is bit `7 - i` of the entry): for every `v`
in 0..9, `seg[v]` is the mirror image of the documented pattern of the standard
glyph of `v`, so segment `k` (a = 0, ..., g = 6) is lit exactly when bit
`7 - (6 - k)` is 0; and bit 0, the mirror image of the documented decimal-point
bit 7, is 1 in every entry because the decimal point is handled outside the
table. -/
theorem seg_mirrors_documented_assignment :
    (∀ v < 10, seg.getD v 0 = mirror8 (documentedPattern v)) ∧
    (∀ v < 10, ∀ k < 7, ((documentedPattern v).testBit (6 - k) = false ↔ k ∈ glyph v)) ∧
    (∀ v < 10, (documentedPattern v).testBit 7 = true) ∧
    (∀ v < 10, ∀ k < 7, ((seg.getD v 0).testBit (7 - (6 - k)) = false ↔ k ∈ glyph v)) ∧
    (∀ v < 16, (seg.getD v 0).testBit 0 = true) := by
  refine ⟨by decide, by decide, by decide, by decide, by decide⟩

/-! ## Effect of the handler on each field, for every status -/

set_option maxRecDepth 100000 in
theorem mirror8_testBit : ∀ x < 256, ∀ i < 8, (mirror8 x).testBit i = x.testBit (7 - i) := by
  decide

theorem dataReceived_frame (s : State) (d : Nat) :
    (dataReceived s d).swflag = s.swflag ∧ (dataReceived s d).switches = s.switches ∧
    (dataReceived s d).PORTB = s.PORTB ∧ (dataReceived s d).PORTD = s.PORTD ∧
    (dataReceived s d).TWDR = s.TWDR := by
  unfold dataReceived
  simp only
  split_ifs <;> exact ⟨rfl, rfl, rfl, rfl, rfl⟩

theorem pre_frame (s : State) :
    (clearInt (preload s)).swflag = s.swflag ∧ (clearInt (preload s)).switches = s.switches ∧
    (clearInt (preload s)).PORTB = s.PORTB ∧ (clearInt (preload s)).PORTD = s.PORTD ∧
    (clearInt (preload s)).TWDR = if s.swflag = 1 then s.switches else s.TWDR := by
  unfold clearInt preload
  split_ifs <;> exact ⟨rfl, rfl, rfl, rfl, rfl⟩

theorem addressRead_frame (s : State) :
    (addressRead s).swflag = 0 ∧ (addressRead s).switches = s.switches ∧
    (addressRead s).PORTB = s.PORTB &&& 0x7F ∧ (addressRead s).PORTD = s.PORTD ∧
    (addressRead s).TWDR = s.TWDR :=
  ⟨rfl, rfl, rfl, rfl, rfl⟩

theorem event_TWDR (s : State) (d st : Nat) :
    (event s d st).TWDR = if s.swflag = 1 then s.switches else d := by
  by_cases h80 : st &&& 0xF8 = 0x80
  · rw [event_dataReceived s d st h80, (dataReceived_frame _ d).2.2.2.2, (pre_frame _).2.2.2.2]
  · by_cases hA8 : st &&& 0xF8 = 0xA8
    · rw [event_addressRead s d st hA8, (addressRead_frame _).2.2.2.2, (pre_frame _).2.2.2.2]
    · rw [event_other s d st h80 hA8, (pre_frame _).2.2.2.2]

theorem event_switches (s : State) (d st : Nat) : (event s d st).switches = s.switches := by
  by_cases h80 : st &&& 0xF8 = 0x80
  · rw [event_dataReceived s d st h80, (dataReceived_frame _ d).2.1, (pre_frame _).2.1]
  · by_cases hA8 : st &&& 0xF8 = 0xA8
    · rw [event_addressRead s d st hA8, (addressRead_frame _).2.1, (pre_frame _).2.1]
    · rw [event_other s d st h80 hA8, (pre_frame _).2.1]

theorem event_swflag (s : State) (d st : Nat) :
    (event s d st).swflag = if st &&& 0xF8 = 0xA8 then 0 else s.swflag := by
  by_cases hA8 : st &&& 0xF8 = 0xA8
  · rw [event_addressRead s d st hA8, if_pos hA8]; rfl
  · rw [if_neg hA8]
    by_cases h80 : st &&& 0xF8 = 0x80
    · rw [event_dataReceived s d st h80, (dataReceived_frame _ d).1, (pre_frame _).1]
    · rw [event_other s d st h80 hA8, (pre_frame _).1]

theorem event_PORTB (s : State) (d st : Nat) :
    (event s d st).PORTB = if st &&& 0xF8 = 0xA8 then s.PORTB &&& 0x7F else s.PORTB := by
  by_cases hA8 : st &&& 0xF8 = 0xA8
  · rw [event_read_PORTB s d st hA8, if_pos hA8]
  · rw [if_neg hA8]
    by_cases h80 : st &&& 0xF8 = 0x80
    · rw [event_dataReceived s d st h80, (dataReceived_frame _ d).2.2.1, (pre_frame _).2.2.1]
    · rw [event_other s d st h80 hA8, (pre_frame _).2.2.1]

theorem event_PORTD (s : State) (d st : Nat) : (event s d st).PORTD = s.PORTD := by
  by_cases h80 : st &&& 0xF8 = 0x80
  · rw [event_dataReceived s d st h80, (dataReceived_frame _ d).2.2.2.1, (pre_frame _).2.2.2.1]
  · by_cases hA8 : st &&& 0xF8 = 0xA8
    · rw [event_addressRead s d st hA8, (addressRead_frame _).2.2.2.1, (pre_frame _).2.2.2.1]
    · rw [event_other s d st h80 hA8, (pre_frame _).2.2.2.1]

theorem event_other_buf (s : State) (d st : Nat) (h80 : st &&& 0xF8 ≠ 0x80) :
    (event s d st).buf = s.buf := by
  by_cases hA8 : st &&& 0xF8 = 0xA8
  · rw [event_addressRead s d st hA8, addressRead_pre_buf]
  · rw [event_other s d st h80 hA8, pre_buf]

theorem event_other_digit (s : State) (d st : Nat) (h80 : st &&& 0xF8 ≠ 0x80) :
    (event s d st).digit = s.digit := by
  by_cases hA8 : st &&& 0xF8 = 0xA8
  · rw [event_addressRead s d st hA8, addressRead_pre_digit]
  · rw [event_other s d st h80 hA8, pre_digit]

/-! ## Whole-step runs from power-on -/

theorem run_nil (s : State) : run s [] = s := rfl

theorem run_snoc (s : State) (inputs : List Input) (i : Input) :
    run s (inputs ++ [i]) = step (run s inputs) i := by
  simp [run, List.foldl_append]

theorem step_switches_lt (s : State) (i : Input) (h : s.switches < 16) :
    (step s i).switches < 16 := by
  cases i with
  | pass pinc => simp only [step]; rw [tick_switches]; exact sample_lt pinc
  | bus data status => simp only [step]; rw [event_switches]; exact h

theorem run_switches_lt (a b : Nat) (inputs : List Input) :
    (run (powerOn a b) inputs).switches < 16 := by
  induction inputs using List.reverseRecOn with
  | nil => exact (by decide : (0 : Nat) < 16)
  | append_singleton inputs i ih => rw [run_snoc]; exact step_switches_lt _ i ih

/-- C13 (pre-load of the outgoing byte on every event).  For every state, byte
and status: when `swflag = 1` on entry the handler leaves `TWDR = switches`, and
in every state reached from power-on by whole steps `switches` is below 16, so
the high four bits of that `TWDR` are 0; when `swflag` is not 1 the handler
leaves `TWDR` holding the byte it held on entry; and for a data-received status
the staging buffer is decoded from the byte `TWDR` held on entry, whether or
not the pre-load has replaced it. -/
theorem preload_on_every_event (s : State) (d st : Nat) :
    (s.swflag = 1 → (event s d st).TWDR = s.switches ∧
      (event s d st).TWDR = (event s d st).switches) ∧
    (∀ a b inputs, s = run (powerOn a b) inputs → s.switches < 16 ∧
      (s.swflag = 1 → (event s d st).TWDR >>> 4 = 0)) ∧
    (s.swflag ≠ 1 → (event s d st).TWDR = d) ∧
    (st &&& 0xF8 = 0x80 → (event s d st).buf =
      s.buf.set ((d &&& 0x30) >>> 4)
        (if d &&& 0x40 ≠ 0 then seg.getD (d &&& 0x0F) 0 &&& 0xFE
          else seg.getD (d &&& 0x0F) 0)) := by
  refine ⟨?_, ?_, ?_, fun hst => event_dataReceived_buf s d st hst⟩
  · intro h
    rw [event_TWDR, event_switches, if_pos h]
    exact ⟨rfl, rfl⟩
  · intro a b inputs hs
    have hlt : s.switches < 16 := by rw [hs]; exact run_switches_lt a b inputs
    refine ⟨hlt, fun h => ?_⟩
    rw [event_TWDR, if_pos h, Nat.shiftRight_eq_div_pow]
    exact Nat.div_eq_of_lt hlt
  · intro h
    rw [event_TWDR, if_neg h]

/-- C14 (unrecognised and terminal statuses are no-ops).  For every state and
byte and every status whose masked value is neither 0x80 nor 0xA8, the handler
leaves `buf[]`, `digit[]`, `swflag`, `switches`, `PORTB` and `PORTD` unchanged;
and for statuses with masked values 0xB8 and 0xC0 the handler leaves the same
state, the status register holding the status apart. -/
theorem other_statuses_are_noops (s : State) (d st : Nat) (h80 : st &&& 0xF8 ≠ 0x80)
    (hA8 : st &&& 0xF8 ≠ 0xA8) :
    ((event s d st).buf = s.buf ∧ (event s d st).digit = s.digit ∧
      (event s d st).swflag = s.swflag ∧ (event s d st).switches = s.switches ∧
      (event s d st).PORTB = s.PORTB ∧ (event s d st).PORTD = s.PORTD) ∧
    (∀ stB stC, stB &&& 0xF8 = 0xB8 → stC &&& 0xF8 = 0xC0 →
      event s d stC = { event s d stB with TWSR := stC }) := by
  refine ⟨⟨event_other_buf s d st h80, event_other_digit s d st h80, ?_, event_switches s d st,
    ?_, event_PORTD s d st⟩, ?_⟩
  · rw [event_swflag, if_neg hA8]
  · rw [event_PORTB, if_neg hA8]
  · intro stB stC hB hC
    have b80 : stB &&& 0xF8 ≠ 0x80 := by rw [hB]; decide
    have bA8 : stB &&& 0xF8 ≠ 0xA8 := by rw [hB]; decide
    have c80 : stC &&& 0xF8 ≠ 0x80 := by rw [hC]; decide
    have cA8 : stC &&& 0xF8 ≠ 0xA8 := by rw [hC]; decide
    rw [event_other s d stB b80 bA8, event_other s d stC c80 cA8]
    unfold clearInt preload
    simp only
    split_ifs <;> rfl

/-! ## The ready flag and the notification line -/

theorem tick_bit7_stays (s : State) (c : Nat) (h : s.PORTB.testBit 7 = true) :
    (tick s c).PORTB.testBit 7 = true := by
  by_cases hc : sample c = 0
  · rw [tick_idle_bit7 s c hc, h]
  · rw [tick_active_bit7 s c hc, h]; simp

/-- C15 (the ready flag is one-shot and only a read consumes it).  From a state
with `swflag = 1`, the flag is still 1 after a pass of the main loop with any
sample, and a set bit 7 of `PORTB` is still set; after a handler event whose
masked status is not 0xA8 the flag is still 1 and `PORTB` is unchanged.  From a
state with `swflag = 0` the flag is still 0 after a handler event of any
status. -/
theorem ready_flag_one_shot (s : State) (c d st : Nat) :
    (s.swflag = 1 → (tick s c).swflag = 1 ∧
      (s.PORTB.testBit 7 = true → (tick s c).PORTB.testBit 7 = true)) ∧
    (s.swflag = 1 → st &&& 0xF8 ≠ 0xA8 →
      (event s d st).swflag = 1 ∧ (event s d st).PORTB = s.PORTB) ∧
    (s.swflag = 0 → (event s d st).swflag = 0) := by
  refine ⟨fun h => ⟨tick_swflag_one s c h, tick_bit7_stays s c⟩, ?_, ?_⟩
  · intro h hA8
    rw [event_swflag, event_PORTB, if_neg hA8, if_neg hA8]
    exact ⟨h, rfl⟩
  · intro h
    rw [event_swflag, h]
    split_ifs <;> rfl

theorem step_line_flag (s : State) (i : Input)
    (h : (s.PORTB.testBit 7 = true ↔ s.swflag = 1) ∧ (s.swflag = 0 ∨ s.swflag = 1)) :
    ((step s i).PORTB.testBit 7 = true ↔ (step s i).swflag = 1) ∧
    ((step s i).swflag = 0 ∨ (step s i).swflag = 1) := by
  obtain ⟨h1, h2⟩ := h
  cases i with
  | pass pinc =>
    simp only [step]
    by_cases hc : sample pinc = 0
    · rw [tick_idle_bit7 s pinc hc, tick_idle_swflag s pinc hc]
      exact ⟨h1, h2⟩
    · rw [tick_active_bit7 s pinc hc, tick_active_swflag s pinc hc]
      by_cases h4 : (s.swon + 1) % 256 = 4
      · simp [h4]
      · simp only [h4, if_false]
        exact ⟨h1, h2⟩
  | bus data status =>
    simp only [step]
    rw [event_swflag, event_PORTB]
    by_cases hA8 : status &&& 0xF8 = 0xA8
    · simp only [hA8, if_true]
      rw [and_0x7F_bit7]
      simp
    · simp only [hA8, if_false]
      exact ⟨h1, h2⟩

/-- C16 (the notification line mirrors the ready flag).  In every state reached
from power-on, whatever the uninitialised `swon` and `swoff`, by any sequence of
whole passes of the main loop and whole handler events, bit 7 of `PORTB` is set
exactly when `swflag = 1`, and `swflag` is 0 or 1. -/
theorem line_mirrors_flag (a b : Nat) (inputs : List Input) :
    ((run (powerOn a b) inputs).PORTB.testBit 7 = true ↔
      (run (powerOn a b) inputs).swflag = 1) ∧
    ((run (powerOn a b) inputs).swflag = 0 ∨ (run (powerOn a b) inputs).swflag = 1) := by
  induction inputs using List.reverseRecOn with
  | nil =>
    have hb : (powerOn a b).PORTB.testBit 7 = false := (by decide : (0x0F : Nat).testBit 7 = false)
    have hf : (powerOn a b).swflag = 0 := rfl
    rw [run_nil, hb, hf]
    simp
  | append_singleton inputs i ih => rw [run_snoc]; exact step_line_flag _ i ih

/-! ## Idempotence of the commit -/

theorem Arr4.set_set (a : Arr4) (i v w : Nat) : (a.set i v).set i w = a.set i w := by
  apply Arr4.ext_get
  intro j _
  simp only [Arr4.get_set]
  split_ifs <;> rfl

theorem Arr4.set_get_self (a : Arr4) (i : Nat) : a.set i (a.get i) = a := by
  apply Arr4.ext_get
  intro j _
  rw [Arr4.get_set]
  split_ifs with h
  · rw [h.1]
  · rfl

/-- C17 (commit is idempotent).  For every state and every byte `d` with bit 7
set, handling the data-received event for `d` twice gives the same `buf[]` and
`digit[]` as handling it once, and after the first `digit[] = buf[]`; and from
there any commit byte `e` whose pattern equals the one already staged at its
position leaves `digit[]` (and `buf[]`) identical. -/
theorem commit_idempotent (s : State) (d st st' : Nat) (hst : st &&& 0xF8 = 0x80)
    (hst' : st' &&& 0xF8 = 0x80) (h7 : d.testBit 7 = true) :
    ((event (event s d st) d st').buf = (event s d st).buf ∧
      (event (event s d st) d st').digit = (event s d st).digit ∧
      (event s d st).digit = (event s d st).buf) ∧
    (∀ e, e.testBit 7 = true →
      (if e &&& 0x40 ≠ 0 then seg.getD (e &&& 0x0F) 0 &&& 0xFE else seg.getD (e &&& 0x0F) 0)
        = (event s d st).buf.get ((e &&& 0x30) >>> 4) →
      (event (event s d st) e st').digit = (event s d st).digit ∧
      (event (event s d st) e st').buf = (event s d st).buf) := by
  have hd : d &&& 0x80 ≠ 0 := (and_0x80 d).mpr h7
  have hdig : (event s d st).digit = (event s d st).buf := by
    rw [event_dataReceived_digit s d st hst, if_pos hd]
  have hbuf2 : (event (event s d st) d st').buf = (event s d st).buf := by
    rw [event_dataReceived_buf _ d st' hst', event_dataReceived_buf s d st hst, Arr4.set_set]
  refine ⟨⟨hbuf2, ?_, hdig⟩, ?_⟩
  · rw [event_dataReceived_digit _ d st' hst', if_pos hd, hbuf2, hdig]
  · intro e he hpat
    have hbe : (event (event s d st) e st').buf = (event s d st).buf := by
      rw [event_dataReceived_buf _ e st' hst', hpat, Arr4.set_get_self]
    refine ⟨?_, hbe⟩
    rw [event_dataReceived_digit _ e st' hst', if_pos ((and_0x80 e).mpr he), hbe, hdig]

/-! ## Power-on -/

theorem zero_arr_get (i : Nat) : (Arr4.mk 0 0 0 0).get i = 0 := by
  unfold Arr4.get
  split <;> rfl

/-- C18, the code at power-on.  The statics `digit[]` and `buf[]` start as zero
and line 181 puts 0xFF (all segments off) on `PORTD`, but every pass of the main
loop before any bus event writes `digit[dig] = 0x00` to `PORTD`: all eight lines
low, which lights every segment and the decimal point. -/
theorem power_on_display_all_lit (a b : Nat) (cs : List Nat) (c : Nat) :
    (powerOn a b).digit = ⟨0, 0, 0, 0⟩ ∧ (powerOn a b).buf = ⟨0, 0, 0, 0⟩ ∧
    (powerOn a b).PORTD = 0xFF ∧
    (tick (ticks (powerOn a b) cs) c).PORTD = 0x00 ∧
    (tick (ticks (powerOn a b) cs) c).PORTD ≠ 0xFF ∧
    (∀ i < 8, ((tick (ticks (powerOn a b) cs) c).PORTD).testBit i = false) := by
  have h : (tick (ticks (powerOn a b) cs) c).PORTD = 0x00 := by
    rw [tick_PORTD, ticks_digit]
    exact zero_arr_get _
  refine ⟨rfl, rfl, rfl, h, ?_, ?_⟩
  · rw [h]; decide
  · rw [h]; decide

/-! ## The handler running inside a pass of the main loop -/

theorem driveDisplay_split (s : State) :
    driveDisplay s = outputDigit (selectDigit s s.PORTB) := rfl

/-- C19, the code under pre-emption.  (1) After four passes with mask 1 the flag
is set and the line is high; in the next pass an address+read event handled
between the read and the write of `PORTB` in line 194 clears both, and the write
then puts the old bit 7 back: the pass ends with `swflag = 0` and the line high.
(2) After three passes with mask 1, the fourth pass raises the line in line 205;
an address+read event handled before line 206 lowers it, and line 206 then sets
the flag: the pass ends with `swflag = 1` and the line low. -/
theorem preempted_pass_breaks_line_flag :
    ((ticks (powerOn 0 0) [0xFE, 0xFE, 0xFE, 0xFE]).swflag = 1 ∧
      (ticks (powerOn 0 0) [0xFE, 0xFE, 0xFE, 0xFE]).PORTB.testBit 7 = true ∧
      (tickPreemptedAtSelect (ticks (powerOn 0 0) [0xFE, 0xFE, 0xFE, 0xFE])
        0xFE 0x67 0xA8).swflag = 0 ∧
      (tickPreemptedAtSelect (ticks (powerOn 0 0) [0xFE, 0xFE, 0xFE, 0xFE])
        0xFE 0x67 0xA8).PORTB.testBit 7 = true) ∧
    ((tickPreemptedAtAssert (ticks (powerOn 0 0) [0xFE, 0xFE, 0xFE]) 0xFE 0x67 0xA8).map
      (fun r => (r.swflag, r.PORTB.testBit 7)) = some (1, false)) := by
  decide

/-! ## Recovery of the debouncer from arbitrary counters -/

theorem idle_ticks_frame (s : State) (cs : List Nat) (hidle : ∀ c ∈ cs, sample c = 0) :
    (ticks s cs).swflag = s.swflag ∧ (ticks s cs).PORTB.testBit 7 = s.PORTB.testBit 7 := by
  induction cs generalizing s with
  | nil => exact ⟨rfl, rfl⟩
  | cons c cs ih =>
    have hc : sample c = 0 := hidle c (List.mem_cons_self c cs)
    obtain ⟨f, p⟩ := ih (tick s c) (fun x hx => hidle x (List.mem_cons_of_mem c hx))
    rw [ticks_cons]
    exact ⟨by rw [f, tick_idle_swflag s c hc], by rw [p, tick_idle_bit7 s c hc]⟩

theorem idle_ticks_settle (s : State) (cs : List Nat) (hidle : ∀ c ∈ cs, sample c = 0)
    (hoff : s.swoff ≤ 20) (h : 21 ≤ cs.length + s.swoff ∨ (s.swon = 0 ∧ s.swoff = 20)) :
    (ticks s cs).swon = 0 ∧ (ticks s cs).swoff = 20 := by
  induction cs generalizing s with
  | nil =>
    rcases h with h | h
    · simp only [List.length_nil] at h; omega
    · exact h
  | cons c cs ih =>
    have hc : sample c = 0 := hidle c (List.mem_cons_self c cs)
    have hon' := tick_idle_swon s c hc
    have hoff' := tick_idle_swoff s c hc
    rw [ticks_cons]
    apply ih (tick s c) (fun x hx => hidle x (List.mem_cons_of_mem c hx))
    · rw [hoff']; split_ifs <;> omega
    · rw [hon', hoff']
      rw [List.length_cons] at h
      by_cases h20 : s.swoff = 20
      · right
        rw [h20]
        exact ⟨rfl, rfl⟩
      · left
        have h256 : (s.swoff + 1) % 256 = s.swoff + 1 := Nat.mod_eq_of_lt (by omega)
        rw [h256]
        split_ifs <;> omega

theorem idle_tick_swoff_le (s : State) (c : Nat) (hc : sample c = 0) : (tick s c).swoff ≤ 20 := by
  rw [tick_idle_swoff s c hc]
  split_ifs <;> omega

theorem active_ticks_below_four (s : State) (cs : List Nat) (hact : ∀ c ∈ cs, sample c ≠ 0)
    (h : s.swon + cs.length < 4) :
    (ticks s cs).swon = s.swon + cs.length ∧ (ticks s cs).swflag = s.swflag ∧
    (ticks s cs).PORTB.testBit 7 = s.PORTB.testBit 7 := by
  induction cs generalizing s with
  | nil => exact ⟨rfl, rfl, rfl⟩
  | cons c cs ih =>
    have hc : sample c ≠ 0 := hact c (List.mem_cons_self c cs)
    rw [List.length_cons] at h
    have h1 : (tick s c).swon = s.swon + 1 := by
      rw [tick_active_swon s c hc]; split_ifs <;> omega
    have h2 : (tick s c).swflag = s.swflag := by
      rw [tick_active_swflag s c hc]; split_ifs <;> first | rfl | omega
    have h3 : (tick s c).PORTB.testBit 7 = s.PORTB.testBit 7 := by
      rw [tick_active_bit7 s c hc]; split_ifs <;> first | rfl | omega
    obtain ⟨n, f, p⟩ := ih (tick s c) (fun x hx => hact x (List.mem_cons_of_mem c hx))
      (by omega)
    rw [ticks_cons, List.length_cons]
    exact ⟨by rw [n, h1]; omega, by rw [f, h2], by rw [p, h3]⟩

/-- C20 (the debouncer recovers from uninitialised counters).  From a state with
any values in `swon` and `swoff`, after 22 consecutive idle passes `swon = 0`
and `swoff = 20`, and after each of those passes `swflag` and bit 7 of `PORTB`
are what they were at the start; of four active passes that follow, the first
three still leave the flag and the line as they were and the fourth sets the
flag and the line. -/
theorem debouncer_recovers (s : State) (idle : List Nat) (c1 c2 c3 c4 : Nat)
    (hlen : idle.length = 22) (hidle : ∀ c ∈ idle, sample c = 0)
    (h1 : sample c1 ≠ 0) (h2 : sample c2 ≠ 0) (h3 : sample c3 ≠ 0) (h4 : sample c4 ≠ 0) :
    ((ticks s idle).swon = 0 ∧ (ticks s idle).swoff = 20) ∧
    (∀ k, (ticks s (idle.take k)).swflag = s.swflag ∧
      (ticks s (idle.take k)).PORTB.testBit 7 = s.PORTB.testBit 7) ∧
    (∀ k ≤ 3, (ticks s (idle ++ [c1, c2, c3].take k)).swflag = s.swflag ∧
      (ticks s (idle ++ [c1, c2, c3].take k)).PORTB.testBit 7 = s.PORTB.testBit 7) ∧
    ((ticks s (idle ++ [c1, c2, c3, c4])).swflag = 1 ∧
      (ticks s (idle ++ [c1, c2, c3, c4])).PORTB.testBit 7 = true) := by
  obtain ⟨c, rest, hcons⟩ : ∃ c rest, idle = c :: rest := by
    cases idle with
    | nil => simp at hlen
    | cons c rest => exact ⟨c, rest, rfl⟩
  have hc : sample c = 0 := hidle c (by rw [hcons]; exact List.mem_cons_self c rest)
  have hrest : ∀ x ∈ rest, sample x = 0 := fun x hx =>
    hidle x (by rw [hcons]; exact List.mem_cons_of_mem c hx)
  have hrl : rest.length = 21 := by
    rw [hcons, List.length_cons] at hlen; omega
  have hset : (ticks s idle).swon = 0 ∧ (ticks s idle).swoff = 20 := by
    rw [hcons, ticks_cons]
    exact idle_ticks_settle (tick s c) rest hrest (idle_tick_swoff_le s c hc)
      (Or.inl (by omega))
  obtain ⟨f, p⟩ := idle_ticks_frame s idle hidle
  refine ⟨hset, ?_, ?_, ?_⟩
  · intro k
    exact idle_ticks_frame s (idle.take k) (fun x hx => hidle x (List.mem_of_mem_take hx))
  · intro k hk
    have hact : ∀ x ∈ [c1, c2, c3].take k, sample x ≠ 0 := by
      intro x hx
      have hx' := List.mem_of_mem_take hx
      simp only [List.mem_cons, List.mem_singleton, List.not_mem_nil, or_false] at hx'
      rcases hx' with rfl | rfl | rfl <;> assumption
    have hl : ([c1, c2, c3].take k).length ≤ 3 := by
      rw [List.length_take]; exact Nat.min_le_right _ _
    obtain ⟨_, f', p'⟩ := active_ticks_below_four (ticks s idle) ([c1, c2, c3].take k) hact
      (by rw [hset.1]; omega)
    rw [ticks_append]
    exact ⟨by rw [f', f], by rw [p', p]⟩
  · obtain ⟨_, _, q3, q4⟩ := four_active_ticks (ticks s idle) c1 c2 c3 c4 hset.1 h1 h2 h3 h4
    rw [ticks_append]
    exact ⟨q3, q4⟩

/-! ## The theorems at concrete inputs -/

/-- Witness for C1: values 1, 2, 3, 4 at positions 0, 1, 2, 3 from the power-on
state, commit on the position-3 byte. -/
theorem staged_write_then_commit_witness :
    List.Perm [0, 1, 2, 3] [0, 1, 2, 3] ∧
    (event (event (event (powerOn 0 0) (cmdByte false false 0 1) 0x80)
      (cmdByte false false 1 2) 0x80) (cmdByte false false 2 3) 0x80).digit
        = (powerOn 0 0).digit ∧
    (event (event (event (event (powerOn 0 0) (cmdByte false false 0 1) 0x80)
      (cmdByte false false 1 2) 0x80) (cmdByte false false 2 3) 0x80)
      (cmdByte true false 3 4) 0x80).digit.get 2 = 0x61 :=
  ⟨List.Perm.refl _,
    (staged_write_then_commit (powerOn 0 0) (fun p => p + 1) 0 1 2 3 0x80 0x80 0x80 0x80
      (by decide) (List.Perm.refl _) (by decide) (by decide) (by decide) (by decide)).2.2.1,
    (staged_write_then_commit (powerOn 0 0) (fun p => p + 1) 0 1 2 3 0x80 0x80 0x80 0x80
      (by decide) (List.Perm.refl _) (by decide) (by decide) (by decide) (by decide)).2.2.2
      2 (by decide)⟩

/-- Witness for C2: the byte 0x52 (decimal point, position 1, value 2, no commit)
at power-on. -/
theorem data_byte_staging_witness :
    0x80 &&& 0xF8 = 0x80 ∧ (event (powerOn 0 0) 0x52 0x80).buf.get 1 = 0x48 ∧
    (event (powerOn 0 0) 0x52 0x80).digit = (powerOn 0 0).digit :=
  ⟨by decide,
    (data_byte_staging (powerOn 0 0) 0x52 0x80 (by decide)).2.2.2.1 (by decide),
    (data_byte_staging (powerOn 0 0) 0x52 0x80 (by decide)).2.2.2.2.2 (by decide)⟩

/-- Witness for C4: four passes with mask 0b0001 from power-on, then a read. -/
theorem debounce_confirm_then_read_witness :
    sample 0xFE = 1 ∧
    (ticks (powerOn 0 0) [0xFE, 0xFE, 0xFE, 0xFE]).swflag = 1 ∧
    (event (ticks (powerOn 0 0) [0xFE, 0xFE, 0xFE, 0xFE]) 0x67 0xA8).TWDR = 1 :=
  ⟨by decide,
    (debounce_confirm_then_read (powerOn 0 0) 0xFE 0xFE 0xFE 0xFE 0x67 0xA8 rfl rfl
      (by decide) (by decide) (by decide) (by decide) (by decide) (by decide)).2.2.2.1.1,
    (debounce_confirm_then_read (powerOn 0 0) 0xFE 0xFE 0xFE 0xFE 0x67 0xA8 rfl rfl
      (by decide) (by decide) (by decide) (by decide) (by decide) (by decide)).2.2.2.2.1⟩

/-- Witness for C5 as amended: a read with the ready flag set, after four passes
with mask 0b0100. -/
theorem read_returns_switches_when_ready_witness :
    (ticks (powerOn 0 0) [0xFB, 0xFB, 0xFB, 0xFB]).swflag = 1 ∧
    (event (ticks (powerOn 0 0) [0xFB, 0xFB, 0xFB, 0xFB]) 0x67 0xA8).TWDR =
      (event (ticks (powerOn 0 0) [0xFB, 0xFB, 0xFB, 0xFB]) 0x67 0xA8).switches :=
  ⟨by decide,
    ((read_returns_switches_when_ready (ticks (powerOn 0 0) [0xFB, 0xFB, 0xFB, 0xFB]) 0x67 0xA8
      (by decide)).1 (by decide)).1⟩

/-- Witness for C6 as amended: the fourth pass with mask 1 sets the flag, a fifth
pass samples mask 2, and the read returns 2. -/
theorem switches_follow_latest_sample_witness :
    (tick (ticks (powerOn 0 0) [0xFE, 0xFE, 0xFE]) 0xFE).swflag = 1 ∧
    (event (ticks (tick (ticks (powerOn 0 0) [0xFE, 0xFE, 0xFE]) 0xFE) ([] ++ [0xFD]))
      0x67 0xA8).TWDR = sample 0xFD :=
  ⟨by decide,
    (switches_follow_latest_sample (ticks (powerOn 0 0) [0xFE, 0xFE, 0xFE]) 0xFE [] 0xFD
      0x67 0xA8 (by decide) (by decide)).2.2.2⟩

/-- Witness for C7: a read that services a pending notification. -/
theorem address_read_effect_witness :
    (ticks (powerOn 0 0) [0xFE, 0xFE, 0xFE, 0xFE]).PORTB.testBit 7 = true ∧
    (event (ticks (powerOn 0 0) [0xFE, 0xFE, 0xFE, 0xFE]) 0x67 0xA8).PORTB.testBit 7 = false ∧
    (event (ticks (powerOn 0 0) [0xFE, 0xFE, 0xFE, 0xFE]) 0x67 0xA8).swflag = 0 :=
  ⟨by decide,
    (address_read_effect (ticks (powerOn 0 0) [0xFE, 0xFE, 0xFE, 0xFE]) 0x67 0xA8
      (by decide)).2.1,
    (address_read_effect (ticks (powerOn 0 0) [0xFE, 0xFE, 0xFE, 0xFE]) 0x67 0xA8
      (by decide)).1⟩

/-- Witness for C8: active for two passes, then idle. -/
theorem short_press_never_latches_witness :
    noRun4 0 [0xFE, 0xFE, 0xFF] = true ∧
    (ticks (powerOn 0 0) [0xFE, 0xFE]).swon = 2 ∧
    (ticks (powerOn 0 0) [0xFE, 0xFE, 0xFF]).swflag = 0 ∧
    (ticks (powerOn 0 0) [0xFE, 0xFE, 0xFF]).swon = 0 :=
  ⟨by decide,
    ((short_press_never_latches (powerOn 0 0) [0xFE, 0xFE, 0xFF] rfl rfl (by decide)).1 2
      (by decide)).2.2.1,
    ((short_press_never_latches (powerOn 0 0) [0xFE, 0xFE, 0xFF] rfl rfl (by decide)).1 3
      (by decide)).1,
    (short_press_never_latches (powerOn 0 0) [0xFE, 0xFE, 0xFF] rfl rfl (by decide)).2 2
      (by decide) (by decide)⟩

/-- Witness for C9: a confirmed press, 21 idle passes, then a fresh press of four
passes. -/
theorem hysteresis_after_confirmed_press_witness :
    (ticks (powerOn 0 0) [0xFE, 0xFE, 0xFE, 0xFE]).swon = 4 ∧
    (ticks (ticks (powerOn 0 0) [0xFE, 0xFE, 0xFE, 0xFE]) (List.replicate 21 0xFF)).swon = 0 ∧
    (ticks (ticks (powerOn 0 0) [0xFE, 0xFE, 0xFE, 0xFE]) (List.replicate 21 0xFF)).swoff = 20 :=
  ⟨by decide,
    ((hysteresis_after_confirmed_press (ticks (powerOn 0 0) [0xFE, 0xFE, 0xFE, 0xFE])
      (List.replicate 21 0xFF) (by decide) (by decide) (by decide)).2 (by decide)).1,
    ((hysteresis_after_confirmed_press (ticks (powerOn 0 0) [0xFE, 0xFE, 0xFE, 0xFE])
      (List.replicate 21 0xFF) (by decide) (by decide) (by decide)).2 (by decide)).2.1⟩

/-- Witness for C10: the third pass from power-on selects digit 2. -/
theorem display_multiplexing_witness :
    (powerOn 0 0).dig = 0 ∧
    (ticks (powerOn 0 0) ([0xFF, 0xFF] ++ [0xFF])).PORTB &&& 0x0F = 0x0B ∧
    (ticks (powerOn 0 0) ([0xFF, 0xFF] ++ [0xFF])).dig = 3 :=
  ⟨rfl,
    (display_multiplexing (powerOn 0 0) [0xFF, 0xFF] 0xFF rfl).2.1.1,
    (display_multiplexing (powerOn 0 0) [0xFF, 0xFF] 0xFF rfl).2.2.1⟩

/-- Witness for C14: a data-sent/ACK status with a notification pending. -/
theorem other_statuses_are_noops_witness :
    (event (ticks (powerOn 0 0) [0xFE, 0xFE, 0xFE, 0xFE]) 0x01 0xB8).swflag = 1 ∧
    (event (ticks (powerOn 0 0) [0xFE, 0xFE, 0xFE, 0xFE]) 0x01 0xB8).PORTB = 0x87 ∧
    event (powerOn 0 0) 0x01 0xC0 = { event (powerOn 0 0) 0x01 0xB8 with TWSR := 0xC0 } :=
  ⟨(other_statuses_are_noops (ticks (powerOn 0 0) [0xFE, 0xFE, 0xFE, 0xFE]) 0x01 0xB8
      (by decide) (by decide)).1.2.2.1,
    (other_statuses_are_noops (ticks (powerOn 0 0) [0xFE, 0xFE, 0xFE, 0xFE]) 0x01 0xB8
      (by decide) (by decide)).1.2.2.2.2.1,
    (other_statuses_are_noops (powerOn 0 0) 0x01 0xB8 (by decide) (by decide)).2 0xB8 0xC0
      (by decide) (by decide)⟩

/-- Witness for C17: the commit byte 0x81 (position 0, value 1) sent twice from
power-on. -/
theorem commit_idempotent_witness :
    Nat.testBit 0x81 7 = true ∧
    (event (event (powerOn 0 0) 0x81 0x80) 0x81 0x80).digit
      = (event (powerOn 0 0) 0x81 0x80).digit ∧
    (event (powerOn 0 0) 0x81 0x80).digit = ⟨0xF3, 0, 0, 0⟩ :=
  ⟨by decide,
    (commit_idempotent (powerOn 0 0) 0x81 0x80 0x80 (by decide) (by decide) (by decide)).1.2.1,
    by decide⟩

/-- Witness for C20: power-on with `swon = 200` and `swoff = 255`, 22 idle
passes, then four passes with mask 1. -/
theorem debouncer_recovers_witness :
    (ticks (powerOn 200 255) (List.replicate 22 0xFF)).swon = 0 ∧
    (ticks (powerOn 200 255) (List.replicate 22 0xFF)).swoff = 20 ∧
    (ticks (powerOn 200 255) (List.replicate 22 0xFF ++ [0xFE, 0xFE, 0xFE, 0xFE])).swflag = 1 :=
  ⟨(debouncer_recovers (powerOn 200 255) (List.replicate 22 0xFF) 0xFE 0xFE 0xFE 0xFE
      (by decide) (by decide) (by decide) (by decide) (by decide) (by decide)).1.1,
    (debouncer_recovers (powerOn 200 255) (List.replicate 22 0xFF) 0xFE 0xFE 0xFE 0xFE
      (by decide) (by decide) (by decide) (by decide) (by decide) (by decide)).1.2,
    (debouncer_recovers (powerOn 200 255) (List.replicate 22 0xFF) 0xFE 0xFE 0xFE 0xFE
      (by decide) (by decide) (by decide) (by decide) (by decide) (by decide)).2.2.2.1⟩

end BGslave
